import Mathlib

/-!
Shallow embedding of the LudoCloud booking admission-control engine.

Sources embedded here:
* `apps/backend/src/bookings/booking-rules.ts` (pure rule helpers)
* `apps/backend/src/bookings/bookings.service.ts` (`create`, `cancel`)
* `apps/backend/src/tables/tables.service.ts` (`memberAvailability`)
* `apps/backend/src/games/games.service.ts` (`create`, `update`)

Modelling conventions:
* Timestamps are `Int` milliseconds (the value of a JS `Date`); a failed
  `Date` parse (`Number.isNaN(d.getTime())`) is modelled by `Option Int`
  being `none`.
* Database identifiers are `Nat`; a `DB` value is the committed state of the
  four tables touched by the core (tables, board games, members, bookings,
  booking_games) plus fresh-id counters standing for generated cuids.
* Each service operation is a function `... → Except Err (DB × result)`.
  Returning `Except.error` models a thrown HTTP exception: Prisma's
  interactive `$transaction` rolls back on a thrown exception, so an error
  leaves the committed state unchanged (`stepOp` keeps the previous `DB`).
  Serializable isolation lets us model concurrent histories as sequences of
  atomic operations.
* Audit records, response shaping and ordering of query results are omitted:
  they do not affect any state or status studied here.
-/

namespace Ludocloud

/-- Reservation status enum (`BookingStatus` in `prisma/schema.prisma`). -/
inductive BookingStatus where
  | PENDING
  | CONFIRMED
  | CANCELLED
  | COMPLETED
  deriving DecidableEq, Repr

/-- User role enum (`UserRole` in `prisma/schema.prisma`). -/
inductive UserRole where
  | ADMIN
  | STAFF
  | MEMBER
  deriving DecidableEq, Repr

/-- Distinct rejection reasons. Each constructor corresponds to exactly one
`throw` site (with its own exception class and message) in the backend
services. -/
inductive Err where
  | invalidDates
  | invalidSlotDuration
  | outsideOpeningHours
  | notInFuture
  | memberNotConfigured
  | memberMismatch
  | memberIdRequired
  | memberNotFound
  | tableUnavailable
  | exceedsCapacity
  | quotaExceeded
  | gamesUnavailable
  | insufficientStock
  | tableConflict
  | stockConflict
  | bookingNotFound
  | forbiddenCancel
  | alreadyCancelled
  | pastDeadline
  | gameNotFound
  | stockIncoherent
  deriving DecidableEq, Repr

/-- A row of the `tables` table (`TableEntity`). -/
structure TableEntity where
  id : Nat
  capacity : Int
  isActive : Bool
  deriving DecidableEq, Repr

/-- A row of the `board_games` table (`BoardGame`). -/
structure BoardGame where
  id : Nat
  stockTotal : Int
  stockAvailable : Int
  isActive : Bool
  deriving DecidableEq, Repr

/-- A row of the `members` table. -/
structure Member where
  id : Nat
  userId : Nat
  deriving DecidableEq, Repr

/-- A row of the `bookings` table. -/
structure Booking where
  id : Nat
  memberId : Nat
  tableId : Nat
  startAt : Int
  endAt : Int
  peopleCount : Int
  status : BookingStatus
  deriving DecidableEq, Repr

/-- A row of the `booking_games` table: an inventory hold. -/
structure BookingGame where
  bookingId : Nat
  boardGameId : Nat
  quantity : Int
  deriving DecidableEq, Repr

/-- The authenticated caller (`AuthUser`). -/
structure AuthUser where
  userId : Nat
  role : UserRole
  deriving DecidableEq, Repr

/-- Environment-supplied configuration of `BookingsService`. -/
structure Config where
  slotMinutes : Int
  openHour : Int
  closeHour : Int
  maxFutureActive : Nat
  cancellationHours : Int
  deriving DecidableEq, Repr

/-- `CreateBookingDto` after the global ValidationPipe and `new Date(...)`
parsing; `startAt = none` models an unparsable (NaN) date. -/
structure CreateBookingDto where
  memberId : Option Nat
  tableId : Nat
  startAt : Option Int
  endAt : Option Int
  peopleCount : Int
  gameSelections : List (Nat × Int)
  deriving DecidableEq, Repr

/-- Stock-relevant part of `CreateGameDto`. -/
structure CreateGameDto where
  stockTotal : Int
  stockAvailable : Int
  isActive : Option Bool
  deriving DecidableEq, Repr

/-- Stock-relevant part of `UpdateGameDto` (all fields optional). -/
structure UpdateGameDto where
  stockTotal : Option Int
  stockAvailable : Option Int
  isActive : Option Bool
  deriving DecidableEq, Repr

/-- Committed database state of the tables the core touches, plus fresh-id
counters standing for the generated row ids. -/
structure DB where
  tables : List TableEntity
  games : List BoardGame
  members : List Member
  bookings : List Booking
  bookingGames : List BookingGame
  nextBookingId : Nat
  nextGameId : Nat
  deriving DecidableEq, Repr

/-! ## Pure rule helpers (`booking-rules.ts`) -/

/-- `export const MINUTES_IN_MS = 60 * 1000`. -/
def MINUTES_IN_MS : Int := 60 * 1000

/-- Milliseconds in one hour. -/
def MS_PER_HOUR : Int := 60 * MINUTES_IN_MS

/-- Milliseconds in one calendar day. -/
def MS_PER_DAY : Int := 24 * MS_PER_HOUR

/-- Calendar day of a timestamp: `toDateString()` equality of two dates is
modelled as equality of their floored day numbers. -/
def dayOf (t : Int) : Int := Int.fdiv t MS_PER_DAY

/-- The instant `h:00:00.000` on the calendar day of `t`
(models `const d = new Date(t); d.setHours(h, 0, 0, 0)`). -/
def atHour (t h : Int) : Int := dayOf t * MS_PER_DAY + h * MS_PER_HOUR

/-- `isValidSlotDuration` from `booking-rules.ts`: the difference of the two
timestamps must equal the slot length exactly. -/
def isValidSlotDuration (startAt endAt slotMinutes : Int) : Bool :=
  endAt - startAt == slotMinutes * MINUTES_IN_MS

/-- `isWithinOpeningHours` from `booking-rules.ts`: same calendar day, start
not before the opening instant, end not after the closing instant (both
instants computed on the start's day). -/
def isWithinOpeningHours (startAt endAt openHour closeHour : Int) : Bool :=
  if dayOf startAt != dayOf endAt then
    false
  else
    decide (atHour startAt openHour ≤ startAt) && decide (endAt ≤ atHour startAt closeHour)

/-! ## Overlap predicates -/

/-- Row predicate of the availability query in
`TablesService.memberAvailability`: status in PENDING/CONFIRMED and
`startAt < qEnd`, `endAt > qStart`. -/
def availabilityBlocks (b : Booking) (qStart qEnd : Int) : Bool :=
  (b.status == .PENDING || b.status == .CONFIRMED)
    && decide (b.startAt < qEnd) && decide (qStart < b.endAt)

/-- Row predicate of the overlap re-check inside `BookingsService.create`'s
transaction: status not CANCELLED and `startAt < qEnd`, `endAt > qStart`. -/
def createBlocks (b : Booking) (qStart qEnd : Int) : Bool :=
  (b.status != .CANCELLED)
    && decide (b.startAt < qEnd) && decide (qStart < b.endAt)

/-- `TablesService.memberAvailability`: active tables, each flagged available
unless some PENDING/CONFIRMED booking overlapping the window sits on it.
The NaN-window rejection is left out (the window argument is already
parsed); result ordering is irrelevant here and omitted. -/
def memberAvailability (db : DB) (window : Option (Int × Int)) : List (TableEntity × Bool) :=
  let activeTables := db.tables.filter (fun t => t.isActive)
  match window with
  | none => activeTables.map (fun t => (t, true))
  | some (qStart, qEnd) =>
    let overlapRows := db.bookings.filter (fun b => availabilityBlocks b qStart qEnd)
    let busyTableIds := overlapRows.map (fun b => b.tableId)
    activeTables.map (fun t => (t, !(busyTableIds.contains t.id)))

/-! ## BookingsService.create -/

/-- One fold step of the `aggregateSelection` map construction: JS `Map`
keeps first-insertion order and sums quantities on existing keys. -/
def addPick (acc : List (Nat × Int)) (gameId : Nat) (quantity : Int) : List (Nat × Int) :=
  match acc with
  | [] => [(gameId, quantity)]
  | (g, q) :: rest =>
    if g == gameId then (g, q + quantity) :: rest
    else (g, q) :: addPick rest gameId quantity

/-- Aggregation of `dto.gameSelections` by game id (duplicate ids sum). -/
def aggregateSelections (selections : List (Nat × Int)) : List (Nat × Int) :=
  selections.foldl (fun acc s => addPick acc s.1 s.2) []

/-- `aggregateSelection.get(gameId) ?? 0`. -/
def qtyFor (agg : List (Nat × Int)) (gameId : Nat) : Int :=
  match agg.find? (fun p => p.1 == gameId) with
  | some p => p.2
  | none => 0

/-- `BookingsService.resolveMemberId`. -/
def resolveMemberId (db : DB) (user : AuthUser) (requestedMemberId : Option Nat) :
    Except Err Nat :=
  if user.role == .MEMBER then
    match db.members.find? (fun m => m.userId == user.userId) with
    | none => .error .memberNotConfigured
    | some member =>
      match requestedMemberId with
      | some r => if r != member.id then .error .memberMismatch else .ok member.id
      | none => .ok member.id
  else
    match requestedMemberId with
    | none => .error .memberIdRequired
    | some r =>
      match db.members.find? (fun m => m.id == r) with
      | none => .error .memberNotFound
      | some member => .ok member.id

/-- The conditional decrement (`tx.boardGame.updateMany` filtered on the id
and on `stockAvailable >= quantity`): returns the updated rows and the
number of rows the update affected. -/
def condDecrement (games : List BoardGame) (gameId : Nat) (quantity : Int) :
    List BoardGame × Nat :=
  let matched := games.filter (fun g => g.id == gameId && decide (quantity ≤ g.stockAvailable))
  let updated := games.map (fun g =>
    if g.id == gameId && decide (quantity ≤ g.stockAvailable) then
      { g with stockAvailable := g.stockAvailable - quantity }
    else g)
  (updated, matched.length)

/-- The per-pick loop inside the create transaction: conditional decrement,
abort with a conflict when it affected zero rows, otherwise insert the hold
row and continue. -/
def applyPicks (db : DB) (bookingId : Nat) : List (Nat × Int) → Except Err DB
  | [] => .ok db
  | (gameId, quantity) :: rest =>
    let result := condDecrement db.games gameId quantity
    if result.2 == 0 then
      .error .stockConflict
    else
      applyPicks
        { db with
            games := result.1
            bookingGames := db.bookingGames
              ++ [{ bookingId := bookingId, boardGameId := gameId, quantity := quantity }] }
        bookingId rest

/-- The serializable transaction body of `BookingsService.create`: overlap
re-check against committed state, insert of the CONFIRMED booking row, then
the conditional stock decrements and hold inserts. An error unwinds the
whole transaction (the caller keeps the previous `DB`). -/
def txCreate (db : DB) (memberId tableId : Nat) (startAt endAt peopleCount : Int)
    (agg : List (Nat × Int)) : Except Err (DB × Booking) :=
  let overlapCount :=
    (db.bookings.filter (fun b => b.tableId == tableId && createBlocks b startAt endAt)).length
  if overlapCount > 0 then
    .error .tableConflict
  else
    let created : Booking :=
      { id := db.nextBookingId, memberId := memberId, tableId := tableId,
        startAt := startAt, endAt := endAt, peopleCount := peopleCount,
        status := .CONFIRMED }
    let db1 : DB :=
      { db with bookings := db.bookings ++ [created], nextBookingId := db.nextBookingId + 1 }
    match applyPicks db1 created.id agg with
    | .error e => .error e
    | .ok db2 => .ok (db2, created)

/-- `BookingsService.create`, in source order: date-shape validation, slot
duration, opening hours, future-only, member resolution, table lookup and
activity, capacity, future-active quota, game aggregation and advisory stock
pre-check, then the transaction. -/
def createBooking (cfg : Config) (now : Int) (user : AuthUser) (db : DB)
    (dto : CreateBookingDto) : Except Err (DB × Booking) :=
  match dto.startAt, dto.endAt with
  | some startAt, some endAt =>
    if !isValidSlotDuration startAt endAt cfg.slotMinutes then
      .error .invalidSlotDuration
    else if !isWithinOpeningHours startAt endAt cfg.openHour cfg.closeHour then
      .error .outsideOpeningHours
    else if startAt ≤ now then
      .error .notInFuture
    else
      match resolveMemberId db user dto.memberId with
      | .error e => .error e
      | .ok memberId =>
        match db.tables.find? (fun t => t.id == dto.tableId) with
        | none => .error .tableUnavailable
        | some table =>
          if !table.isActive then
            .error .tableUnavailable
          else if table.capacity < dto.peopleCount then
            .error .exceedsCapacity
          else
            let activeFutureBookings := (db.bookings.filter (fun b =>
              b.memberId == memberId && decide (now < b.startAt)
                && (b.status == .PENDING || b.status == .CONFIRMED))).length
            if cfg.maxFutureActive ≤ activeFutureBookings then
              .error .quotaExceeded
            else
              let agg := aggregateSelections dto.gameSelections
              let preCheck : Except Err Unit :=
                if agg.length > 0 then
                  let games := db.games.filter (fun g =>
                    (agg.any (fun p => p.1 == g.id)) && g.isActive)
                  if games.length != agg.length then
                    .error .gamesUnavailable
                  else if games.any (fun g => decide (g.stockAvailable < qtyFor agg g.id)) then
                    .error .insufficientStock
                  else
                    .ok ()
                else
                  .ok ()
              match preCheck with
              | .error e => .error e
              | .ok _ => txCreate db memberId dto.tableId startAt endAt dto.peopleCount agg
  | _, _ => .error .invalidDates

/-! ## BookingsService.cancel -/

/-- One `tx.boardGame.update` incrementing `stockAvailable` of the held game
(unconditional increment; the row exists by foreign-key protection). -/
def incrementStock (games : List BoardGame) (gameId : Nat) (quantity : Int) :
    List BoardGame :=
  games.map (fun g =>
    if g.id == gameId then { g with stockAvailable := g.stockAvailable + quantity } else g)

/-- The increment loop of the cancel transaction over the booking's holds. -/
def incrementAll (games : List BoardGame) (holds : List BookingGame) : List BoardGame :=
  holds.foldl (fun gs h => incrementStock gs h.boardGameId h.quantity) games

/-- `BookingsService.cancel`: lookup, ownership check for MEMBER, the
already-cancelled check, the cutoff check, then the transaction that sets
the status to CANCELLED and restores the stock of every held game.
The hold rows themselves are not touched. -/
def cancelBooking (cfg : Config) (now : Int) (user : AuthUser) (db : DB)
    (bookingId : Nat) : Except Err (DB × Booking) :=
  match db.bookings.find? (fun b => b.id == bookingId) with
  | none => .error .bookingNotFound
  | some booking =>
    if user.role == .MEMBER
        && !(db.members.any (fun m => m.id == booking.memberId && m.userId == user.userId)) then
      .error .forbiddenCancel
    else if booking.status == .CANCELLED then
      .error .alreadyCancelled
    else
      let cancellationDeadline := booking.startAt - cfg.cancellationHours * MS_PER_HOUR
      if cancellationDeadline < now then
        .error .pastDeadline
      else
        let holds := db.bookingGames.filter (fun bg => bg.bookingId == booking.id)
        let bookings1 := db.bookings.map (fun b =>
          if b.id == booking.id then { b with status := BookingStatus.CANCELLED } else b)
        let db1 : DB := { db with bookings := bookings1, games := incrementAll db.games holds }
        .ok (db1, { booking with status := BookingStatus.CANCELLED })

/-! ## GamesService.create / update -/

/-- `GamesService.create`: stock-coherence check, then insert. -/
def createGame (db : DB) (dto : CreateGameDto) : Except Err (DB × BoardGame) :=
  if dto.stockTotal < dto.stockAvailable then
    .error .stockIncoherent
  else
    let game : BoardGame :=
      { id := db.nextGameId, stockTotal := dto.stockTotal,
        stockAvailable := dto.stockAvailable, isActive := dto.isActive.getD true }
    .ok ({ db with games := db.games ++ [game], nextGameId := db.nextGameId + 1 }, game)

/-- `GamesService.update`: combine the partial dto with the existing row,
check stock coherence on the combined values, then update the row. -/
def updateGame (db : DB) (id : Nat) (dto : UpdateGameDto) : Except Err (DB × BoardGame) :=
  match db.games.find? (fun g => g.id == id) with
  | none => .error .gameNotFound
  | some existing =>
    let stockTotal := dto.stockTotal.getD existing.stockTotal
    let stockAvailable := dto.stockAvailable.getD existing.stockAvailable
    if stockTotal < stockAvailable then
      .error .stockIncoherent
    else
      let applyDto := fun (g : BoardGame) =>
        { g with
            stockTotal := dto.stockTotal.getD g.stockTotal
            stockAvailable := dto.stockAvailable.getD g.stockAvailable
            isActive := dto.isActive.getD g.isActive }
      .ok ({ db with games := db.games.map (fun g => if g.id == id then applyDto g else g) },
        applyDto existing)

/-! ## Operation sequences -/

/-- One externally invokable write operation of the system. -/
inductive Op where
  | createGame (dto : CreateGameDto)
  | updateGame (id : Nat) (dto : UpdateGameDto)
  | createBooking (now : Int) (user : AuthUser) (dto : CreateBookingDto)
  | cancelBooking (now : Int) (user : AuthUser) (bookingId : Nat)
  deriving DecidableEq, Repr

/-- Commit semantics of one operation: a rejected operation rolls back and
leaves the committed state unchanged. -/
def stepOp (cfg : Config) (db : DB) : Op → DB
  | .createGame dto =>
    match createGame db dto with
    | .ok (db', _) => db'
    | .error _ => db
  | .updateGame id dto =>
    match updateGame db id dto with
    | .ok (db', _) => db'
    | .error _ => db
  | .createBooking now user dto =>
    match createBooking cfg now user db dto with
    | .ok (db', _) => db'
    | .error _ => db
  | .cancelBooking now user bookingId =>
    match cancelBooking cfg now user db bookingId with
    | .ok (db', _) => db'
    | .error _ => db

/-- Run a sequence of operations (serializable isolation lets concurrent
histories be modelled as such sequences). -/
def runOps (cfg : Config) (db : DB) (ops : List Op) : DB :=
  ops.foldl (stepOp cfg) db

/-- The state with no rows at all. -/
def emptyDB : DB :=
  { tables := [], games := [], members := [], bookings := [], bookingGames := [],
    nextBookingId := 0, nextGameId := 0 }

/-! ## Invariants -/

/-- Half-open interval overlap of two bookings. -/
def bookingOverlap (b1 b2 : Booking) : Prop :=
  b1.startAt < b2.endAt ∧ b2.startAt < b1.endAt

/-- The no-double-booking invariant: non-cancelled bookings on one table are
pairwise non-overlapping. -/
def noDoubleBooking (db : DB) : Prop :=
  db.bookings.Pairwise (fun b1 b2 =>
    b1.tableId = b2.tableId → b1.status ≠ .CANCELLED → b2.status ≠ .CANCELLED →
      ¬ bookingOverlap b1 b2)

/-- Some booking row with the given id is not cancelled. -/
def hasActiveOwner (bks : List Booking) (bookingId : Nat) : Bool :=
  bks.any (fun b => b.id == bookingId && b.status != .CANCELLED)

/-- Total quantity of holds on a game whose owning booking is not
cancelled. -/
def activeHeld (bks : List Booking) (gameId : Nat) : List BookingGame → Int
  | [] => 0
  | bg :: rest =>
    (if bg.boardGameId == gameId && hasActiveOwner bks bg.bookingId then bg.quantity else 0)
      + activeHeld bks gameId rest

/-- Total quantity of the given holds that sit on a game id. -/
def holdsSum (gameId : Nat) : List BookingGame → Int
  | [] => 0
  | bg :: rest => (if bg.boardGameId == gameId then bg.quantity else 0) + holdsSum gameId rest

/-- The stock-bound predicate of the claim, decidably. -/
def stockBound (db : DB) : Bool :=
  db.games.all (fun g => decide (0 ≤ g.stockAvailable) && decide (g.stockAvailable ≤ g.stockTotal))

/-- Constraints the class-validator DTOs put on an operation's payload
(stock fields nonnegative, pick quantities at least 1). -/
def OpWf : Op → Prop
  | .createGame dto => 0 ≤ dto.stockAvailable
  | .updateGame _ dto => ∀ v, dto.stockAvailable = some v → 0 ≤ v
  | .createBooking _ _ dto => ∀ s ∈ dto.gameSelections, 1 ≤ s.2
  | .cancelBooking _ _ _ => True

/-- Lower-bound part of the stock invariant, together with nonnegativity of
stored hold quantities. -/
def LowInv (db : DB) : Prop :=
  (∀ g ∈ db.games, 0 ≤ g.stockAvailable) ∧ (∀ bg ∈ db.bookingGames, 0 ≤ bg.quantity)

/-- The inductive stock invariant: lower bound, hold-adjusted upper bound,
distinct game ids, and freshness of the id counters. -/
structure StockInv (db : DB) : Prop where
  low : ∀ g ∈ db.games, 0 ≤ g.stockAvailable
  qty_nonneg : ∀ bg ∈ db.bookingGames, 0 ≤ bg.quantity
  bound : ∀ g ∈ db.games,
    g.stockAvailable + activeHeld db.bookings g.id db.bookingGames ≤ g.stockTotal
  games_nodup : (db.games.map (fun g => g.id)).Nodup
  games_lt : ∀ g ∈ db.games, g.id < db.nextGameId
  holds_game_lt : ∀ bg ∈ db.bookingGames, bg.boardGameId < db.nextGameId
  bookings_lt : ∀ b ∈ db.bookings, b.id < db.nextBookingId
  holds_booking_lt : ∀ bg ∈ db.bookingGames, bg.bookingId < db.nextBookingId

/-! ## Concrete fixtures used by witnesses and counterexamples -/

/-- The default configuration (slot 90 min, 15:00 to 23:00, quota 3,
cancellation cutoff 2 h). -/
def cfg0 : Config :=
  { slotMinutes := 90, openHour := 15, closeHour := 23,
    maxFutureActive := 3, cancellationHours := 2 }

/-- A sample active table of capacity 4. -/
def table0 : TableEntity := { id := 0, capacity := 4, isActive := true }

/-- A sample member owned by user 0. -/
def member0 : Member := { id := 0, userId := 0 }

/-- The member-role caller owning `member0`. -/
def user0 : AuthUser := { userId := 0, role := .MEMBER }

/-- 18:00 on calendar day 1. -/
def start18 : Int := MS_PER_DAY + 18 * MS_PER_HOUR

/-- 19:30 on calendar day 1 (one 90-minute slot after `start18`). -/
def end1930 : Int := start18 + 90 * MINUTES_IN_MS

/-- Starting state for stock scenarios: one table, one game with
5 of 5 in stock, one member, no bookings. -/
def db2start : DB :=
  { tables := [table0],
    games := [{ id := 0, stockTotal := 5, stockAvailable := 5, isActive := true }],
    members := [member0], bookings := [], bookingGames := [],
    nextBookingId := 0, nextGameId := 1 }

/-- A valid one-slot booking request for table 0 picking 2 copies of game 0. -/
def dtoA : CreateBookingDto :=
  { memberId := none, tableId := 0, startAt := some start18, endAt := some end1930,
    peopleCount := 2, gameSelections := [(0, 2)] }

/-- State holding one CONFIRMED booking with a hold of 2 copies of game 0
(3 of 5 copies left in stock). -/
def db6 : DB :=
  { tables := [table0],
    games := [{ id := 0, stockTotal := 5, stockAvailable := 3, isActive := true }],
    members := [member0],
    bookings := [{ id := 0, memberId := 0, tableId := 0, startAt := start18,
                   endAt := end1930, peopleCount := 2, status := .CONFIRMED }],
    bookingGames := [{ bookingId := 0, boardGameId := 0, quantity := 2 }],
    nextBookingId := 1, nextGameId := 1 }

/-! ## C9: fixed-slot exactness -/

/-- C9: `isValidSlotDuration start end slotMinutes` is true iff
`end - start` equals exactly `slotMinutes` minutes, and every create request
whose parsed timestamps differ by anything else is rejected with the
slot-duration reason, regardless of every other request parameter and of
the whole database state. -/
theorem c9_fixed_slot :
    (∀ startAt endAt slotMinutes : Int,
      isValidSlotDuration startAt endAt slotMinutes = true ↔
        endAt - startAt = slotMinutes * MINUTES_IN_MS) ∧
    (∀ (cfg : Config) (now : Int) (user : AuthUser) (db : DB) (dto : CreateBookingDto)
        (startAt endAt : Int),
      dto.startAt = some startAt → dto.endAt = some endAt →
      endAt - startAt ≠ cfg.slotMinutes * MINUTES_IN_MS →
      createBooking cfg now user db dto = .error .invalidSlotDuration) := by
  constructor
  · intro startAt endAt slotMinutes
    simp [isValidSlotDuration]
  · intro cfg now user db dto startAt endAt hs he hne
    unfold createBooking
    rw [hs, he]
    simp [isValidSlotDuration, hne]

/-- Witness for C9 at concrete inputs: a 90-minute pair satisfies the
predicate, and a 1-minute request is rejected as a slot-duration error. -/
theorem c9_fixed_slot_witness :
    (isValidSlotDuration 0 5400000 90 = true ↔ (5400000 : Int) - 0 = 90 * MINUTES_IN_MS) ∧
    createBooking cfg0 0 user0 db2start
      { memberId := none, tableId := 0, startAt := some start18,
        endAt := some (start18 + MINUTES_IN_MS), peopleCount := 2, gameSelections := [] }
      = .error .invalidSlotDuration :=
  ⟨c9_fixed_slot.1 0 5400000 90,
   c9_fixed_slot.2 cfg0 0 user0 db2start _ start18 (start18 + MINUTES_IN_MS) rfl rfl
     (by decide)⟩

/-! ## C10: operating-window semantics -/

/-- C10: `isWithinOpeningHours` returns false iff start and end fall on
different calendar days, or start is strictly before the opening instant of
start's day, or end is strictly after the closing instant of that day; a
start exactly at the opening instant and an end exactly at the closing
instant are accepted. -/
theorem c10_operating_window :
    (∀ startAt endAt openHour closeHour : Int,
      isWithinOpeningHours startAt endAt openHour closeHour = false ↔
        (dayOf startAt ≠ dayOf endAt ∨ startAt < atHour startAt openHour
          ∨ atHour startAt closeHour < endAt)) ∧
    (∀ startAt endAt openHour closeHour : Int,
      dayOf startAt = dayOf endAt →
      atHour startAt openHour ≤ startAt → endAt ≤ atHour startAt closeHour →
      isWithinOpeningHours startAt endAt openHour closeHour = true) := by
  constructor
  · intro startAt endAt openHour closeHour
    unfold isWithinOpeningHours
    by_cases h : dayOf startAt = dayOf endAt
    · simp [h]
      omega
    · simp [h]
  · intro startAt endAt openHour closeHour h h1 h2
    unfold isWithinOpeningHours
    simp [h, h1, h2]

/-- Witness for C10 at concrete inputs: 15:00 to 23:00 on day 1 with the
boundary instants themselves is accepted. -/
theorem c10_operating_window_witness :
    isWithinOpeningHours (MS_PER_DAY + 15 * MS_PER_HOUR) (MS_PER_DAY + 23 * MS_PER_HOUR)
      15 23 = true :=
  c10_operating_window.2 (MS_PER_DAY + 15 * MS_PER_HOUR) (MS_PER_DAY + 23 * MS_PER_HOUR)
    15 23 (by decide) (by decide) (by decide)

/-! ## Cancel path: helper lemmas -/

/-- Characterization of a successful `cancelBooking`: the looked-up row, the
checks that passed, and the exact shape of the committed state. -/
theorem cancelBooking_ok {cfg : Config} {now : Int} {user : AuthUser} {db : DB}
    {bookingId : Nat} {db' : DB} {bk : Booking}
    (h : cancelBooking cfg now user db bookingId = .ok (db', bk)) :
    ∃ booking, db.bookings.find? (fun b => b.id == bookingId) = some booking ∧
      (user.role == .MEMBER
        && !(db.members.any (fun m => m.id == booking.memberId && m.userId == user.userId)))
          = false ∧
      booking.status ≠ .CANCELLED ∧
      ¬ (booking.startAt - cfg.cancellationHours * MS_PER_HOUR < now) ∧
      bk = { booking with status := .CANCELLED } ∧
      db' = { db with
        bookings := db.bookings.map (fun b =>
          if b.id == booking.id then { b with status := BookingStatus.CANCELLED } else b)
        games := incrementAll db.games
          (db.bookingGames.filter (fun bg => bg.bookingId == booking.id)) } := by
  unfold cancelBooking at h
  cases hfind : db.bookings.find? (fun b => b.id == bookingId) with
  | none => rw [hfind] at h; simp at h
  | some booking =>
    rw [hfind] at h
    simp only at h
    refine ⟨booking, rfl, ?_⟩
    split at h
    case isTrue => simp at h
    case isFalse hauth =>
      split at h
      case isTrue => simp at h
      case isFalse hstatus =>
        split at h
        case isTrue => simp at h
        case isFalse hdeadline =>
          simp only [Except.ok.injEq, Prod.mk.injEq] at h
          refine ⟨by simpa using hauth, by simpa using hstatus, hdeadline, h.2.symm, h.1.symm⟩

/-- The increment loop of cancel, written as one map over the game rows:
each row gains the total held quantity the given holds put on its id. -/
theorem incrementAll_eq_map (games : List BoardGame) (holds : List BookingGame) :
    incrementAll games holds = games.map (fun g =>
      { g with stockAvailable := g.stockAvailable + holdsSum g.id holds }) := by
  induction holds generalizing games with
  | nil =>
    simp [incrementAll, holdsSum]
  | cons hd rest ih =>
    have hstep : incrementAll games (hd :: rest)
        = incrementAll (incrementStock games hd.boardGameId hd.quantity) rest := rfl
    rw [hstep, ih, incrementStock, List.map_map]
    apply List.map_congr_left
    intro g _
    by_cases hid : g.id = hd.boardGameId
    · simp [Function.comp, hid, holdsSum, add_assoc]
    · have : (hd.boardGameId == g.id) = false := by
        simp [Ne.symm hid]
      simp [Function.comp, hid, holdsSum, this]

/-- After mapping the status-to-CANCELLED update over the bookings, the same
lookup finds the cancelled copy of the row it found before. -/
theorem find?_map_cancel {l : List Booking} {bid : Nat} {bk : Booking}
    (h : l.find? (fun b => b.id == bid) = some bk) :
    (l.map (fun b =>
        if b.id == bk.id then { b with status := BookingStatus.CANCELLED } else b)).find?
      (fun b => b.id == bid) = some { bk with status := BookingStatus.CANCELLED } := by
  have hbk : (bk.id == bid) = true := by
    have := List.find?_some h
    simpa using this
  induction l with
  | nil => simp at h
  | cons x xs ih =>
    rw [List.find?_cons] at h
    by_cases hx : (x.id == bid) = true
    · rw [hx] at h
      simp only at h
      have hxbk : x = bk := by simpa using h
      subst hxbk
      simp [List.find?_cons, hbk]
    · have hxbool : (x.id == bid) = false := by simpa using hx
      rw [hxbool] at h
      simp only at h
      have hxid : (x.id == bk.id) = false := by
        have h2 : bk.id = bid := by simpa using hbk
        rw [h2]
        exact hxbool
      simp only [List.map_cons, hxid, Bool.false_eq_true, if_false]
      rw [List.find?_cons, hxbool]
      exact ih h

/-! ## C7: cancellation cutoff -/

/-- C7: for a cancel request by an authorized caller on an existing
non-cancelled reservation, the request is rejected iff the current instant
is strictly after `startAt` minus the configured cancellation window; a
request exactly at the deadline instant is accepted and yields status
CANCELLED. -/
theorem c7_cancellation_cutoff :
    ∀ (cfg : Config) (now : Int) (user : AuthUser) (db : DB) (bookingId : Nat) (bk : Booking),
      db.bookings.find? (fun b => b.id == bookingId) = some bk →
      (user.role == .MEMBER
        && !(db.members.any (fun m => m.id == bk.memberId && m.userId == user.userId)))
          = false →
      bk.status ≠ .CANCELLED →
      ((bk.startAt - cfg.cancellationHours * MS_PER_HOUR < now →
          cancelBooking cfg now user db bookingId = .error .pastDeadline) ∧
       (now ≤ bk.startAt - cfg.cancellationHours * MS_PER_HOUR →
          ∃ db', cancelBooking cfg now user db bookingId
            = .ok (db', { bk with status := .CANCELLED }))) := by
  intro cfg now user db bookingId bk hfind hauth hstatus
  unfold cancelBooking
  rw [hfind]
  simp only
  rw [if_neg (by simp_all), if_neg (by simp_all)]
  constructor
  · intro hlate
    rw [if_pos hlate]
  · intro hok
    rw [if_neg (not_lt.mpr hok)]
    exact ⟨_, rfl⟩

/-- Witness for C7: in `db6` (2-hour cutoff), a cancel 1 hour before start is
rejected as past the deadline and a cancel 3 hours before start succeeds
with status CANCELLED. -/
theorem c7_cancellation_cutoff_witness :
    cancelBooking cfg0 (start18 - 1 * MS_PER_HOUR) user0 db6 0 = .error .pastDeadline ∧
    ∃ db', cancelBooking cfg0 (start18 - 3 * MS_PER_HOUR) user0 db6 0
      = .ok (db', { id := 0, memberId := 0, tableId := 0, startAt := start18,
                    endAt := end1930, peopleCount := 2, status := .CANCELLED }) :=
  ⟨(c7_cancellation_cutoff cfg0 (start18 - 1 * MS_PER_HOUR) user0 db6 0
      { id := 0, memberId := 0, tableId := 0, startAt := start18, endAt := end1930,
        peopleCount := 2, status := .CONFIRMED }
      (by decide) (by decide) (by decide)).1 (by decide),
   (c7_cancellation_cutoff cfg0 (start18 - 3 * MS_PER_HOUR) user0 db6 0
      { id := 0, memberId := 0, tableId := 0, startAt := start18, endAt := end1930,
        peopleCount := 2, status := .CONFIRMED }
      (by decide) (by decide) (by decide)).2 (by decide)⟩

/-- The booking of `db6` after cancellation. -/
def bk6c : Booking :=
  { id := 0, memberId := 0, tableId := 0, startAt := start18, endAt := end1930,
    peopleCount := 2, status := .CANCELLED }

/-- The state produced by cancelling the booking of `db6`: status CANCELLED,
stock restored to 5, hold row still present. -/
def db6c : DB :=
  { tables := [table0],
    games := [{ id := 0, stockTotal := 5, stockAvailable := 5, isActive := true }],
    members := [member0], bookings := [bk6c],
    bookingGames := [{ bookingId := 0, boardGameId := 0, quantity := 2 }],
    nextBookingId := 1, nextGameId := 1 }

/-! ## C5: cancellation reversibility, exactly once -/

/-- C5: a successful cancel returns a CANCELLED reservation, adds back to
every inventory item exactly the quantity this reservation held on it, and a
second cancel attempt on the same reservation by the same caller is rejected
as already cancelled at every later instant (so the stock increment can
happen at most once per reservation). -/
theorem c5_cancellation_reversibility :
    ∀ (cfg : Config) (now : Int) (user : AuthUser) (db : DB) (bookingId : Nat)
      (db' : DB) (bk : Booking),
      cancelBooking cfg now user db bookingId = .ok (db', bk) →
      bk.status = .CANCELLED ∧ bk.id = bookingId ∧
      db'.games = db.games.map (fun g =>
        { g with stockAvailable := g.stockAvailable + holdsSum g.id (db.bookingGames.filter (fun bg => bg.bookingId == bookingId)) }) ∧
      (∀ now2 : Int, cancelBooking cfg now2 user db' bookingId = .error .alreadyCancelled) := by
  intro cfg now user db bookingId db' bk h
  obtain ⟨booking, hfind, hauth, hstatus, hdl, hbk, hdb'⟩ := cancelBooking_ok h
  have hid : booking.id = bookingId := by simpa using List.find?_some hfind
  subst hbk
  subst hdb'
  refine ⟨rfl, by simpa using hid, ?_, ?_⟩
  · simp only [hid, incrementAll_eq_map]
  · intro now2
    unfold cancelBooking
    rw [find?_map_cancel hfind]
    simp [hauth]

/-- Witness for C5 at the `db6` scenario: cancelling restores the 2 held
copies (3 of 5 back to 5 of 5), the returned reservation is CANCELLED, and a
second cancel is rejected as already cancelled. -/
theorem c5_cancellation_reversibility_witness :
    (bk6c.status = .CANCELLED ∧ bk6c.id = 0) ∧
    db6c.games = db6.games.map (fun g =>
      { g with stockAvailable := g.stockAvailable + holdsSum g.id (db6.bookingGames.filter (fun bg => bg.bookingId == 0)) }) ∧
    cancelBooking cfg0 0 user0 db6c 0 = .error .alreadyCancelled :=
  ⟨⟨(c5_cancellation_reversibility cfg0 (start18 - 3 * MS_PER_HOUR) user0 db6 0 db6c bk6c
      (by rfl)).1,
    (c5_cancellation_reversibility cfg0 (start18 - 3 * MS_PER_HOUR) user0 db6 0 db6c bk6c
      (by rfl)).2.1⟩,
   (c5_cancellation_reversibility cfg0 (start18 - 3 * MS_PER_HOUR) user0 db6 0 db6c bk6c
      (by rfl)).2.2.1,
   (c5_cancellation_reversibility cfg0 (start18 - 3 * MS_PER_HOUR) user0 db6 0 db6c bk6c
      (by rfl)).2.2.2 0⟩

/-! ## C6: holds and cancellation -/

/-- C6 counterexample: cancelling the reservation of `db6` succeeds, yet the
hold row of the cancelled reservation is still present in the committed
state, so a hold row does not exist only while its owning reservation is
not cancelled, and cancel does not delete the hold rows. -/
theorem c6_holds_counterexample :
    cancelBooking cfg0 (start18 - 3 * MS_PER_HOUR) user0 db6 0 = .ok (db6c, bk6c) ∧
    db6c.bookingGames = [{ bookingId := 0, boardGameId := 0, quantity := 2 }] := by
  constructor
  · rfl
  · rfl

/-- C6 as amended: a successful cancel keeps the hold rows untouched; in the
same atomic step it sets the reservation's status to CANCELLED, so afterwards
every hold row of this reservation has no non-cancelled owner (the hold is
released in effect, its row is retained). -/
theorem c6_holds_on_cancel :
    ∀ (cfg : Config) (now : Int) (user : AuthUser) (db : DB) (bookingId : Nat)
      (db' : DB) (bk : Booking),
      cancelBooking cfg now user db bookingId = .ok (db', bk) →
      db'.bookingGames = db.bookingGames ∧
      (∀ b ∈ db'.bookings, b.id = bookingId → b.status = .CANCELLED) ∧
      (∀ bg ∈ db'.bookingGames, bg.bookingId = bookingId →
        hasActiveOwner db'.bookings bg.bookingId = false) := by
  intro cfg now user db bookingId db' bk h
  obtain ⟨booking, hfind, hauth, hstatus, hdl, hbk, hdb'⟩ := cancelBooking_ok h
  have hid : booking.id = bookingId := by simpa using List.find?_some hfind
  subst hbk
  subst hdb'
  have hcanc : ∀ b ∈ (db.bookings.map (fun b =>
      if b.id == booking.id then { b with status := BookingStatus.CANCELLED } else b)),
      b.id = bookingId → b.status = .CANCELLED := by
    intro b hb hbid
    obtain ⟨a, ha, hfa⟩ := List.mem_map.mp hb
    by_cases hcase : (a.id == booking.id) = true
    · rw [if_pos hcase] at hfa
      rw [← hfa]
    · rw [if_neg hcase] at hfa
      subst hfa
      exact absurd (hbid.trans hid.symm) (by simpa using hcase)
  refine ⟨rfl, hcanc, ?_⟩
  intro bg hbg hbgid
  rw [hasActiveOwner]
  rw [List.any_eq_false]
  intro b hb
  by_cases hmatch : b.id = bg.bookingId
  · have : b.status = .CANCELLED := hcanc b hb (by rw [hmatch, hbgid])
    simp [this]
  · simp [hmatch]

/-- Witness for C6 at the `db6` scenario: the hold rows are unchanged by the
cancel and the cancelled reservation's hold no longer has an active owner. -/
theorem c6_holds_on_cancel_witness :
    db6c.bookingGames = db6.bookingGames ∧
    hasActiveOwner db6c.bookings 0 = false :=
  ⟨(c6_holds_on_cancel cfg0 (start18 - 3 * MS_PER_HOUR) user0 db6 0 db6c bk6c
      (by rfl)).1,
   by
    have h := (c6_holds_on_cancel cfg0 (start18 - 3 * MS_PER_HOUR) user0 db6 0 db6c bk6c
      (by rfl)).2.2 { bookingId := 0, boardGameId := 0, quantity := 2 } (by decide) rfl
    simpa using h⟩

/-! ## C3: availability versus write-path overlap guard -/

/-- A COMPLETED reservation occupying table 0 during the sample slot. -/
def bkCompleted : Booking :=
  { id := 0, memberId := 0, tableId := 0, startAt := start18, endAt := end1930,
    peopleCount := 2, status := .COMPLETED }

/-- State whose only reservation is `bkCompleted`. -/
def dbC3 : DB :=
  { tables := [table0],
    games := [], members := [member0], bookings := [bkCompleted], bookingGames := [],
    nextBookingId := 1, nextGameId := 0 }

/-- C3 counterexample: on a COMPLETED reservation fully overlapping the
window the two predicates disagree — the availability lookup reports the
table as available while the create path's transactional guard aborts with
a conflict on the very same state and window. -/
theorem c3_agreement_counterexample :
    availabilityBlocks bkCompleted start18 end1930 = false ∧
    createBlocks bkCompleted start18 end1930 = true ∧
    memberAvailability dbC3 (some (start18, end1930)) = [(table0, true)] ∧
    txCreate dbC3 0 0 start18 end1930 2 [] = .error .tableConflict :=
  ⟨rfl, rfl, rfl, rfl⟩

/-- C3 as amended: the availability lookup marks a table unavailable iff some
PENDING/CONFIRMED reservation on that table overlaps the query window under
the half-open predicate, and this classification coincides with the
write-path predicate (status not CANCELLED) on every reservation whose
status is not COMPLETED; on overlapping COMPLETED reservations the two
predicates differ. -/
theorem c3_availability_agreement :
    (∀ (db : DB) (qStart qEnd : Int) (t : TableEntity) (fl : Bool),
      (t, fl) ∈ memberAvailability db (some (qStart, qEnd)) →
      (fl = false ↔
        ∃ b ∈ db.bookings, b.tableId = t.id ∧ availabilityBlocks b qStart qEnd = true)) ∧
    (∀ (b : Booking) (qStart qEnd : Int), b.status ≠ .COMPLETED →
      availabilityBlocks b qStart qEnd = createBlocks b qStart qEnd) := by
  constructor
  · intro db qStart qEnd t fl hmem
    unfold memberAvailability at hmem
    simp only [List.mem_map, List.mem_filter, Prod.mk.injEq] at hmem
    obtain ⟨t', ⟨ht'mem, ht'act⟩, ht', hfl⟩ := hmem
    subst ht'
    subst hfl
    simp only [Bool.not_eq_false', List.contains_eq_any_beq, List.any_eq_true,
      List.mem_map, List.mem_filter, beq_iff_eq]
    constructor
    · rintro ⟨x, ⟨b, ⟨hb, hblocks⟩, rfl⟩, hid⟩
      exact ⟨b, hb, hid.symm, hblocks⟩
    · rintro ⟨b, hb, htid, hblocks⟩
      exact ⟨b.tableId, ⟨b, ⟨hb, hblocks⟩, rfl⟩, htid.symm⟩
  · intro b qStart qEnd hne
    cases hs : b.status <;> simp_all [availabilityBlocks, createBlocks] <;> rfl

/-- Witness for C3 at a concrete state: in `db6` (one CONFIRMED overlapping
reservation) the lookup's false flag is equivalent to the existence of a
blocking reservation, and on that CONFIRMED reservation the two predicates
agree. -/
theorem c3_availability_agreement_witness :
    ((false = false) ↔
      ∃ b ∈ db6.bookings, b.tableId = table0.id ∧
        availabilityBlocks b start18 end1930 = true) ∧
    availabilityBlocks
        { id := 0, memberId := 0, tableId := 0, startAt := start18, endAt := end1930,
          peopleCount := 2, status := .CONFIRMED } start18 end1930
      = createBlocks
        { id := 0, memberId := 0, tableId := 0, startAt := start18, endAt := end1930,
          peopleCount := 2, status := .CONFIRMED } start18 end1930 :=
  ⟨c3_availability_agreement.1 db6 start18 end1930 table0 false (by decide),
   c3_availability_agreement.2
     { id := 0, memberId := 0, tableId := 0, startAt := start18, endAt := end1930,
       peopleCount := 2, status := .CONFIRMED } start18 end1930 (by decide)⟩

/-! ## C8: rule-evaluation order and purity -/

/-- State for the C8 counterexample: like `db2start` but with no member
profile configured for the caller. -/
def dbC8 : DB :=
  { tables := [table0],
    games := [{ id := 0, stockTotal := 5, stockAvailable := 5, isActive := true }],
    members := [], bookings := [], bookingGames := [],
    nextBookingId := 0, nextGameId := 1 }

/-- Request for the C8 counterexample: passes every temporal check but asks
for 50 people (far beyond the capacity of every table). -/
def dtoC8 : CreateBookingDto :=
  { memberId := none, tableId := 0, startAt := some start18, endAt := some end1930,
    peopleCount := 50, gameSelections := [] }

/-- C8 counterexample: a request that violates the capacity rule is rejected
with the member-resolution reason, not the capacity reason, because the
member lookup — a persistent-state query — runs before the capacity check;
so the capacity check is not evaluated before every persistent-state
query. -/
theorem c8_rule_order_counterexample :
    createBooking cfg0 0 user0 dbC8 dtoC8 = .error .memberNotConfigured ∧
    Err.memberNotConfigured ≠ Err.exceedsCapacity :=
  ⟨rfl, by decide⟩

/-- C8 as amended: create validates in the order shape → slot duration →
operating window → future-only → member resolution (first DB query) → table
lookup → capacity → quota, stopping at the first failing check with that
check's distinct rejection reason; the first four checks are pure (same
outcome for every database state), while capacity and quota are evaluated
only after the member and table lookups because they depend on persistent
state. -/
theorem c8_rule_order :
    (∀ (cfg : Config) (now : Int) (user : AuthUser) (db : DB) (dto : CreateBookingDto),
      (dto.startAt = none ∨ dto.endAt = none) →
      createBooking cfg now user db dto = .error .invalidDates) ∧
    (∀ (cfg : Config) (now : Int) (user : AuthUser) (db : DB) (dto : CreateBookingDto)
        (s e : Int), dto.startAt = some s → dto.endAt = some e →
      isValidSlotDuration s e cfg.slotMinutes = false →
      createBooking cfg now user db dto = .error .invalidSlotDuration) ∧
    (∀ (cfg : Config) (now : Int) (user : AuthUser) (db : DB) (dto : CreateBookingDto)
        (s e : Int), dto.startAt = some s → dto.endAt = some e →
      isValidSlotDuration s e cfg.slotMinutes = true →
      isWithinOpeningHours s e cfg.openHour cfg.closeHour = false →
      createBooking cfg now user db dto = .error .outsideOpeningHours) ∧
    (∀ (cfg : Config) (now : Int) (user : AuthUser) (db : DB) (dto : CreateBookingDto)
        (s e : Int), dto.startAt = some s → dto.endAt = some e →
      isValidSlotDuration s e cfg.slotMinutes = true →
      isWithinOpeningHours s e cfg.openHour cfg.closeHour = true →
      s ≤ now →
      createBooking cfg now user db dto = .error .notInFuture) ∧
    (∀ (cfg : Config) (now : Int) (user : AuthUser) (db : DB) (dto : CreateBookingDto)
        (s e : Int) (err : Err), dto.startAt = some s → dto.endAt = some e →
      isValidSlotDuration s e cfg.slotMinutes = true →
      isWithinOpeningHours s e cfg.openHour cfg.closeHour = true →
      now < s →
      resolveMemberId db user dto.memberId = .error err →
      createBooking cfg now user db dto = .error err) ∧
    (∀ (cfg : Config) (now : Int) (user : AuthUser) (db : DB) (dto : CreateBookingDto)
        (s e : Int) (memberId : Nat) (table : TableEntity),
      dto.startAt = some s → dto.endAt = some e →
      isValidSlotDuration s e cfg.slotMinutes = true →
      isWithinOpeningHours s e cfg.openHour cfg.closeHour = true →
      now < s →
      resolveMemberId db user dto.memberId = .ok memberId →
      db.tables.find? (fun t => t.id == dto.tableId) = some table →
      table.isActive = true →
      table.capacity < dto.peopleCount →
      createBooking cfg now user db dto = .error .exceedsCapacity) ∧
    (∀ (cfg : Config) (now : Int) (user : AuthUser) (db : DB) (dto : CreateBookingDto)
        (s e : Int) (memberId : Nat) (table : TableEntity),
      dto.startAt = some s → dto.endAt = some e →
      isValidSlotDuration s e cfg.slotMinutes = true →
      isWithinOpeningHours s e cfg.openHour cfg.closeHour = true →
      now < s →
      resolveMemberId db user dto.memberId = .ok memberId →
      db.tables.find? (fun t => t.id == dto.tableId) = some table →
      table.isActive = true →
      ¬ (table.capacity < dto.peopleCount) →
      cfg.maxFutureActive ≤ (db.bookings.filter (fun b =>
        b.memberId == memberId && decide (now < b.startAt)
          && (b.status == .PENDING || b.status == .CONFIRMED))).length →
      createBooking cfg now user db dto = .error .quotaExceeded) := by
  refine ⟨?_, ?_, ?_, ?_, ?_, ?_, ?_⟩
  · intro cfg now user db dto h
    unfold createBooking
    rcases h with h | h
    · rw [h]
    · rw [h]
      cases dto.startAt <;> rfl
  · intro cfg now user db dto s e hs he hslot
    unfold createBooking
    rw [hs, he]
    simp [hslot]
  · intro cfg now user db dto s e hs he hslot hwin
    unfold createBooking
    rw [hs, he]
    simp [hslot, hwin]
  · intro cfg now user db dto s e hs he hslot hwin hfut
    unfold createBooking
    rw [hs, he]
    simp [hslot, hwin, hfut]
  · intro cfg now user db dto s e err hs he hslot hwin hfut hres
    unfold createBooking
    rw [hs, he]
    simp [hslot, hwin, not_le.mpr hfut, hres]
  · intro cfg now user db dto s e memberId table hs he hslot hwin hfut hres hfind hact hcap
    unfold createBooking
    rw [hs, he]
    simp [hslot, hwin, not_le.mpr hfut, hres, hfind, hact, hcap]
  · intro cfg now user db dto s e memberId table hs he hslot hwin hfut hres hfind hact hcap hq
    unfold createBooking
    rw [hs, he]
    simp [hslot, hwin, not_le.mpr hfut, hres, hfind, hact, hcap, hq]

/-- Witness for C8: with a valid member and table, a 50-person request on a
capacity-4 table fails with the capacity reason; and a request with an
unparsable start date is rejected as invalid dates for the very same
database state. -/
theorem c8_rule_order_witness :
    createBooking cfg0 0 user0 db2start { dtoC8 with memberId := none }
      = .error .exceedsCapacity ∧
    createBooking cfg0 0 user0 db2start { dtoC8 with startAt := none }
      = .error .invalidDates :=
  ⟨c8_rule_order.2.2.2.2.2.1 cfg0 0 user0 db2start { dtoC8 with memberId := none }
      start18 end1930 0 table0 rfl rfl (by decide) (by decide) (by decide) rfl rfl rfl
      (by decide),
   c8_rule_order.1 cfg0 0 user0 db2start { dtoC8 with startAt := none } (Or.inl rfl)⟩

/-! ## C4: conditional decrement and transactional rollback -/

/-- C4: the conditional decrement touches a row only when its stock covers
the aggregated requested quantity (every output row is either an unchanged
input row or the decrement of a row that had sufficient stock); a pick whose
game has no row with sufficient stock makes the decrement affect zero rows
and the pick loop abort with the stock conflict; and every rejected create —
in particular such an aborted transaction — commits nothing: the state after
the operation is exactly the state before it (no reservation row, no hold
rows, no stock change). -/
theorem c4_conditional_decrement :
    (∀ (games : List BoardGame) (gameId : Nat) (quantity : Int) (g' : BoardGame),
      g' ∈ (condDecrement games gameId quantity).1 →
      ∃ g ∈ games, g' = g ∨
        (g.id = gameId ∧ quantity ≤ g.stockAvailable ∧
          g' = { g with stockAvailable := g.stockAvailable - quantity })) ∧
    (∀ (db : DB) (bookingId gameId : Nat) (quantity : Int) (rest : List (Nat × Int)),
      (∀ g ∈ db.games, ¬ (g.id = gameId ∧ quantity ≤ g.stockAvailable)) →
      applyPicks db bookingId ((gameId, quantity) :: rest) = .error .stockConflict) ∧
    (∀ (cfg : Config) (now : Int) (user : AuthUser) (db : DB) (dto : CreateBookingDto)
        (e : Err),
      createBooking cfg now user db dto = .error e →
      stepOp cfg db (Op.createBooking now user dto) = db) := by
  refine ⟨?_, ?_, ?_⟩
  · intro games gameId quantity g' hmem
    unfold condDecrement at hmem
    simp only [List.mem_map] at hmem
    obtain ⟨g, hg, hfg⟩ := hmem
    refine ⟨g, hg, ?_⟩
    by_cases hcond : (g.id == gameId && decide (quantity ≤ g.stockAvailable)) = true
    · rw [if_pos hcond] at hfg
      simp only [Bool.and_eq_true, beq_iff_eq, decide_eq_true_eq] at hcond
      exact Or.inr ⟨hcond.1, hcond.2, hfg.symm⟩
    · rw [if_neg hcond] at hfg
      exact Or.inl hfg.symm
  · intro db bookingId gameId quantity rest hno
    unfold applyPicks
    have hfil : db.games.filter
        (fun g => g.id == gameId && decide (quantity ≤ g.stockAvailable)) = [] := by
      rw [List.filter_eq_nil_iff]
      intro g hg
      simp only [Bool.and_eq_true, beq_iff_eq, decide_eq_true_eq, not_and]
      intro h1 h2
      exact hno g hg ⟨h1, h2⟩
    simp [condDecrement, hfil]
  · intro cfg now user db dto e h
    simp [stepOp, h]

/-- Witness for C4 at concrete inputs: a row whose single copy cannot cover a
pick of 2 survives the conditional decrement unchanged, the pick loop aborts
with the stock conflict, and a rejected create leaves the state untouched. -/
theorem c4_conditional_decrement_witness :
    (∃ g ∈ [BoardGame.mk 0 5 1 true],
      ({ id := 0, stockTotal := 5, stockAvailable := 1, isActive := true } : BoardGame) = g ∨
        (g.id = 0 ∧ (2 : Int) ≤ g.stockAvailable ∧
          ({ id := 0, stockTotal := 5, stockAvailable := 1, isActive := true } : BoardGame)
            = { g with stockAvailable := g.stockAvailable - 2 })) ∧
    applyPicks { db6 with games := [BoardGame.mk 0 5 1 true] } 0 [(0, 2)]
      = .error .stockConflict ∧
    stepOp cfg0 db2start (Op.createBooking 0 user0 { dtoA with endAt := some start18 })
      = db2start :=
  ⟨c4_conditional_decrement.1 [BoardGame.mk 0 5 1 true] 0 2
      { id := 0, stockTotal := 5, stockAvailable := 1, isActive := true } (by decide),
   c4_conditional_decrement.2.1 { db6 with games := [BoardGame.mk 0 5 1 true] } 0 0 2 []
      (by decide),
   c4_conditional_decrement.2.2 cfg0 0 user0 db2start { dtoA with endAt := some start18 }
      .invalidSlotDuration rfl⟩

/-! ## Create path: helper lemmas -/

/-- A successful pick loop changes only the games and booking_games tables. -/
theorem applyPicks_ok_fields :
    ∀ (agg : List (Nat × Int)) (db : DB) (bookingId : Nat) (db' : DB),
      applyPicks db bookingId agg = .ok db' →
      db'.tables = db.tables ∧ db'.members = db.members ∧ db'.bookings = db.bookings ∧
        db'.nextBookingId = db.nextBookingId ∧ db'.nextGameId = db.nextGameId := by
  intro agg
  induction agg with
  | nil =>
    intro db bookingId db' h
    simp only [applyPicks, Except.ok.injEq] at h
    subst h
    exact ⟨rfl, rfl, rfl, rfl, rfl⟩
  | cons p rest ih =>
    intro db bookingId db' h
    obtain ⟨gameId, quantity⟩ := p
    unfold applyPicks at h
    simp only at h
    split at h
    case isTrue => simp at h
    case isFalse =>
      have := ih _ _ _ h
      simpa using this

/-- Characterization of a successful create transaction: the overlap filter
was empty, and the committed bookings are the old ones plus the new
CONFIRMED reservation. -/
theorem txCreate_ok {db : DB} {memberId tableId : Nat} {startAt endAt peopleCount : Int}
    {agg : List (Nat × Int)} {db' : DB} {bk : Booking}
    (h : txCreate db memberId tableId startAt endAt peopleCount agg = .ok (db', bk)) :
    db.bookings.filter (fun b => b.tableId == tableId && createBlocks b startAt endAt) = [] ∧
    bk = { id := db.nextBookingId, memberId := memberId, tableId := tableId,
           startAt := startAt, endAt := endAt, peopleCount := peopleCount,
           status := .CONFIRMED } ∧
    db'.bookings = db.bookings ++ [bk] := by
  unfold txCreate at h
  simp only at h
  split at h
  case isTrue => simp at h
  case isFalse hcnt =>
    have hfil : db.bookings.filter
        (fun b => b.tableId == tableId && createBlocks b startAt endAt) = [] := by
      rw [← List.length_eq_zero]
      omega
    split at h
    case h_1 => simp at h
    case h_2 db2 happ =>
      simp only [Except.ok.injEq, Prod.mk.injEq] at h
      obtain ⟨hdb, hbk⟩ := h
      subst hdb
      subst hbk
      refine ⟨hfil, rfl, ?_⟩
      have := (applyPicks_ok_fields _ _ _ _ happ).2.2.1
      simpa using this

/-- Extraction of a successful create down to its transaction: the
timestamps parsed, all advisory checks passed, and the transaction result is
the operation's result. -/
theorem createBooking_ok {cfg : Config} {now : Int} {user : AuthUser} {db : DB}
    {dto : CreateBookingDto} {db' : DB} {bk : Booking}
    (h : createBooking cfg now user db dto = .ok (db', bk)) :
    ∃ startAt endAt memberId, dto.startAt = some startAt ∧ dto.endAt = some endAt ∧
      txCreate db memberId dto.tableId startAt endAt dto.peopleCount
        (aggregateSelections dto.gameSelections) = .ok (db', bk) := by
  unfold createBooking at h
  cases hs : dto.startAt with
  | none =>
    rw [hs] at h
    cases he : dto.endAt with
    | none => rw [he] at h; simp at h
    | some e => rw [he] at h; simp at h
  | some s =>
    rw [hs] at h
    cases he : dto.endAt with
    | none => rw [he] at h; simp at h
    | some e =>
      rw [he] at h
      simp only at h
      refine ⟨s, e, ?_⟩
      split at h
      case isTrue => simp at h
      case isFalse =>
        split at h
        case isTrue => simp at h
        case isFalse =>
          split at h
          case isTrue => simp at h
          case isFalse =>
            cases hres : resolveMemberId db user dto.memberId with
            | error err => rw [hres] at h; simp at h
            | ok memberId =>
              rw [hres] at h
              simp only at h
              cases hfind : db.tables.find? (fun t => t.id == dto.tableId) with
              | none => rw [hfind] at h; simp at h
              | some table =>
                rw [hfind] at h
                simp only at h
                split at h
                case isTrue => simp at h
                case isFalse =>
                  split at h
                  case isTrue => simp at h
                  case isFalse =>
                    split at h
                    case isTrue => simp at h
                    case isFalse =>
                      refine ⟨memberId, rfl, rfl, ?_⟩
                      split at h
                      case h_1 => simp at h
                      case h_2 => exact h

/-- A successful game creation leaves bookings and holds unchanged. -/
theorem createGame_ok_fields {db : DB} {dto : CreateGameDto} {db' : DB} {g : BoardGame}
    (h : createGame db dto = .ok (db', g)) :
    db'.bookings = db.bookings ∧ db'.bookingGames = db.bookingGames ∧
      db'.nextBookingId = db.nextBookingId := by
  unfold createGame at h
  split at h
  case isTrue => simp at h
  case isFalse =>
    simp only [Except.ok.injEq, Prod.mk.injEq] at h
    rw [← h.1]
    exact ⟨rfl, rfl, rfl⟩

/-- A successful game update leaves bookings and holds unchanged. -/
theorem updateGame_ok_fields {db : DB} {id : Nat} {dto : UpdateGameDto} {db' : DB}
    {g : BoardGame} (h : updateGame db id dto = .ok (db', g)) :
    db'.bookings = db.bookings ∧ db'.bookingGames = db.bookingGames ∧
      db'.nextBookingId = db.nextBookingId := by
  unfold updateGame at h
  split at h
  case h_1 => simp at h
  case h_2 =>
    simp only at h
    split at h
    case isTrue => simp at h
    case isFalse =>
      simp only [Except.ok.injEq, Prod.mk.injEq] at h
      rw [← h.1]
      exact ⟨rfl, rfl, rfl⟩

/-- Reduction of `stepOp` on a successful game creation. -/
theorem stepOp_createGame_ok {cfg : Config} {db : DB} {dto : CreateGameDto} {db' : DB}
    {g : BoardGame} (hg : createGame db dto = .ok (db', g)) :
    stepOp cfg db (.createGame dto) = db' := by
  simp only [stepOp, hg]

/-- Reduction of `stepOp` on a rejected game creation. -/
theorem stepOp_createGame_err {cfg : Config} {db : DB} {dto : CreateGameDto} {e : Err}
    (hg : createGame db dto = .error e) :
    stepOp cfg db (.createGame dto) = db := by
  simp only [stepOp, hg]

/-- Reduction of `stepOp` on a successful game update. -/
theorem stepOp_updateGame_ok {cfg : Config} {db : DB} {id : Nat} {dto : UpdateGameDto}
    {db' : DB} {g : BoardGame} (hg : updateGame db id dto = .ok (db', g)) :
    stepOp cfg db (.updateGame id dto) = db' := by
  simp only [stepOp, hg]

/-- Reduction of `stepOp` on a rejected game update. -/
theorem stepOp_updateGame_err {cfg : Config} {db : DB} {id : Nat} {dto : UpdateGameDto}
    {e : Err} (hg : updateGame db id dto = .error e) :
    stepOp cfg db (.updateGame id dto) = db := by
  simp only [stepOp, hg]

/-- Reduction of `stepOp` on a successful booking creation. -/
theorem stepOp_createBooking_ok {cfg : Config} {now : Int} {user : AuthUser} {db : DB}
    {dto : CreateBookingDto} {db' : DB} {bk : Booking}
    (hc : createBooking cfg now user db dto = .ok (db', bk)) :
    stepOp cfg db (.createBooking now user dto) = db' := by
  simp only [stepOp, hc]

/-- Reduction of `stepOp` on a rejected booking creation. -/
theorem stepOp_createBooking_err {cfg : Config} {now : Int} {user : AuthUser} {db : DB}
    {dto : CreateBookingDto} {e : Err}
    (hc : createBooking cfg now user db dto = .error e) :
    stepOp cfg db (.createBooking now user dto) = db := by
  simp only [stepOp, hc]

/-- Reduction of `stepOp` on a successful cancellation. -/
theorem stepOp_cancelBooking_ok {cfg : Config} {now : Int} {user : AuthUser} {db : DB}
    {bookingId : Nat} {db' : DB} {bk : Booking}
    (hc : cancelBooking cfg now user db bookingId = .ok (db', bk)) :
    stepOp cfg db (.cancelBooking now user bookingId) = db' := by
  simp only [stepOp, hc]

/-- Reduction of `stepOp` on a rejected cancellation. -/
theorem stepOp_cancelBooking_err {cfg : Config} {now : Int} {user : AuthUser} {db : DB}
    {bookingId : Nat} {e : Err}
    (hc : cancelBooking cfg now user db bookingId = .error e) :
    stepOp cfg db (.cancelBooking now user bookingId) = db := by
  simp only [stepOp, hc]

/-- Every single committed operation preserves the no-double-booking
invariant. -/
theorem stepOp_preserves_noDoubleBooking (cfg : Config) (db : DB) (op : Op)
    (h : noDoubleBooking db) : noDoubleBooking (stepOp cfg db op) := by
  unfold noDoubleBooking at h ⊢
  cases op with
  | createGame dto =>
    cases hg : createGame db dto with
    | error e => rw [stepOp_createGame_err hg]; exact h
    | ok res =>
      obtain ⟨db', g⟩ := res
      rw [stepOp_createGame_ok hg, (createGame_ok_fields hg).1]
      exact h
  | updateGame id dto =>
    cases hg : updateGame db id dto with
    | error e => rw [stepOp_updateGame_err hg]; exact h
    | ok res =>
      obtain ⟨db', g⟩ := res
      rw [stepOp_updateGame_ok hg, (updateGame_ok_fields hg).1]
      exact h
  | createBooking now user dto =>
    cases hc : createBooking cfg now user db dto with
    | error e => rw [stepOp_createBooking_err hc]; exact h
    | ok res =>
      obtain ⟨db', bk⟩ := res
      rw [stepOp_createBooking_ok hc]
      obtain ⟨s, e, memberId, hs, he, htx⟩ := createBooking_ok hc
      obtain ⟨hfil, hbk, hbook⟩ := txCreate_ok htx
      rw [hbook, List.pairwise_append]
      refine ⟨h, List.pairwise_singleton _ _, ?_⟩
      intro a ha b hb
      simp only [List.mem_singleton] at hb
      subst hb
      intro htab hs1 hs2 hov
      have hmem := List.filter_eq_nil_iff.mp hfil a ha
      apply hmem
      subst hbk
      simp only at htab hs2
      obtain ⟨ho1, ho2⟩ := hov
      simp only at ho1 ho2
      simp [createBlocks, htab, ho1, ho2, bne_iff_ne, hs1]
  | cancelBooking now user bookingId =>
    cases hc : cancelBooking cfg now user db bookingId with
    | error e => rw [stepOp_cancelBooking_err hc]; exact h
    | ok res =>
      obtain ⟨db', bk⟩ := res
      rw [stepOp_cancelBooking_ok hc]
      obtain ⟨booking, hfind, hauth, hstatus, hdl, hbk, hdb'⟩ := cancelBooking_ok hc
      subst hdb'
      simp only
      refine List.Pairwise.map _ ?_ h
      intro a b hab
      have hpres : ∀ x : Booking,
          ((if x.id == booking.id then { x with status := BookingStatus.CANCELLED } else x)
              : Booking).tableId = x.tableId ∧
          ((if x.id == booking.id then { x with status := BookingStatus.CANCELLED } else x)
              : Booking).startAt = x.startAt ∧
          ((if x.id == booking.id then { x with status := BookingStatus.CANCELLED } else x)
              : Booking).endAt = x.endAt := by
        intro x
        by_cases hx : (x.id == booking.id) = true <;> simp [hx]
      have hst : ∀ x : Booking,
          ((if x.id == booking.id then { x with status := BookingStatus.CANCELLED } else x)
              : Booking).status = x.status ∨
          ((if x.id == booking.id then { x with status := BookingStatus.CANCELLED } else x)
              : Booking).status = .CANCELLED := by
        intro x
        by_cases hx : (x.id == booking.id) = true <;> simp [hx]
      intro htab h1 h2 hov
      rw [(hpres a).1, (hpres b).1] at htab
      have ha : a.status ≠ .CANCELLED := by
        rcases hst a with hA | hA
        · rw [← hA]; exact h1
        · exact absurd hA h1
      have hb : b.status ≠ .CANCELLED := by
        rcases hst b with hB | hB
        · rw [← hB]; exact h2
        · exact absurd hB h2
      apply hab htab ha hb
      obtain ⟨ho1, ho2⟩ := hov
      rw [(hpres a).2.1, (hpres b).2.2] at ho1
      rw [(hpres b).2.1, (hpres a).2.2] at ho2
      exact ⟨ho1, ho2⟩

/-! ## C1: no-double-booking invariant -/

/-- C1: the no-double-booking invariant is preserved by every sequence of
committed operations — if the non-cancelled reservations of a state are
pairwise non-overlapping per table, they still are after running any
operation sequence; the create transaction aborts with a conflict whenever
some non-cancelled reservation on the requested table overlaps the requested
half-open window, and commits only when no such reservation existed. -/
theorem c1_no_double_booking :
    (∀ (cfg : Config) (db : DB) (ops : List Op),
      noDoubleBooking db → noDoubleBooking (runOps cfg db ops)) ∧
    (∀ (db : DB) (memberId tableId : Nat) (startAt endAt peopleCount : Int)
        (agg : List (Nat × Int)),
      (∃ b ∈ db.bookings, b.tableId = tableId ∧ b.status ≠ .CANCELLED ∧
        b.startAt < endAt ∧ startAt < b.endAt) →
      txCreate db memberId tableId startAt endAt peopleCount agg = .error .tableConflict) ∧
    (∀ (db : DB) (memberId tableId : Nat) (startAt endAt peopleCount : Int)
        (agg : List (Nat × Int)) (db' : DB) (bk : Booking),
      txCreate db memberId tableId startAt endAt peopleCount agg = .ok (db', bk) →
      ∀ b ∈ db.bookings, b.tableId = tableId → b.status ≠ .CANCELLED →
        ¬ (b.startAt < endAt ∧ startAt < b.endAt)) := by
  refine ⟨?_, ?_, ?_⟩
  · intro cfg db ops
    induction ops generalizing db with
    | nil => intro h; exact h
    | cons op rest ih =>
      intro h
      exact ih _ (stepOp_preserves_noDoubleBooking cfg db op h)
  · intro db memberId tableId startAt endAt peopleCount agg hex
    obtain ⟨b, hb, htab, hstat, ho1, ho2⟩ := hex
    unfold txCreate
    rw [if_pos]
    have : b ∈ db.bookings.filter
        (fun b => b.tableId == tableId && createBlocks b startAt endAt) := by
      rw [List.mem_filter]
      exact ⟨hb, by simp [createBlocks, htab, ho1, ho2, bne_iff_ne, hstat]⟩
    have hlen := List.length_pos.mpr (List.ne_nil_of_mem this)
    omega
  · intro db memberId tableId startAt endAt peopleCount agg db' bk htx b hb htab hstat hov
    have hfil := (txCreate_ok htx).1
    have := List.filter_eq_nil_iff.mp hfil b hb
    apply this
    obtain ⟨ho1, ho2⟩ := hov
    simp [createBlocks, htab, ho1, ho2, bne_iff_ne, hstat]

/-- Witness for C1: starting from the empty-booking state, creating the
sample booking keeps the invariant; and the create transaction on `db6`
(holding an overlapping CONFIRMED reservation) aborts with the table
conflict. -/
theorem c1_no_double_booking_witness :
    noDoubleBooking (runOps cfg0 db2start [Op.createBooking 0 user0 dtoA]) ∧
    txCreate db6 0 0 start18 end1930 2 [] = .error .tableConflict :=
  ⟨c1_no_double_booking.1 cfg0 db2start [Op.createBooking 0 user0 dtoA]
      (List.Pairwise.nil),
   c1_no_double_booking.2.1 db6 0 0 start18 end1930 2 []
      ⟨{ id := 0, memberId := 0, tableId := 0, startAt := start18, endAt := end1930,
         peopleCount := 2, status := .CONFIRMED },
       by simp [db6], rfl, by decide, by decide, by decide⟩⟩

/-! ## Stock invariant: helper lemmas -/

/-- Sums of nonnegative hold quantities are nonnegative. -/
theorem holdsSum_nonneg {gameId : Nat} {l : List BookingGame}
    (h : ∀ bg ∈ l, 0 ≤ bg.quantity) : 0 ≤ holdsSum gameId l := by
  induction l with
  | nil => simp [holdsSum]
  | cons bg rest ih =>
    have h1 := h bg (by simp)
    have h2 := ih (fun x hx => h x (by simp [hx]))
    simp only [holdsSum]
    split <;> omega

/-- Active held quantity is nonnegative when all hold quantities are. -/
theorem activeHeld_nonneg {bks : List Booking} {gameId : Nat} {l : List BookingGame}
    (h : ∀ bg ∈ l, 0 ≤ bg.quantity) : 0 ≤ activeHeld bks gameId l := by
  induction l with
  | nil => simp [activeHeld]
  | cons bg rest ih =>
    have h1 := h bg (by simp)
    have h2 := ih (fun x hx => h x (by simp [hx]))
    simp only [activeHeld]
    split <;> omega

/-- Appending a hold row adds its (conditional) contribution. -/
theorem activeHeld_append (bks : List Booking) (gameId : Nat) (l : List BookingGame)
    (bg : BookingGame) :
    activeHeld bks gameId (l ++ [bg])
      = activeHeld bks gameId l
        + (if bg.boardGameId == gameId && hasActiveOwner bks bg.bookingId
            then bg.quantity else 0) := by
  induction l with
  | nil => simp [activeHeld]
  | cons x rest ih =>
    simp only [List.cons_append, activeHeld, List.append_eq]
    rw [ih]
    omega

/-- Appending a booking with a fresh id does not change ownership state of
other ids. -/
theorem hasActiveOwner_append_ne (bks : List Booking) (b : Booking) (bid : Nat)
    (h : bid ≠ b.id) : hasActiveOwner (bks ++ [b]) bid = hasActiveOwner bks bid := by
  unfold hasActiveOwner
  rw [List.any_append]
  have hb : [b].any (fun x => x.id == bid && x.status != .CANCELLED) = false := by
    simp [Ne.symm h]
  rw [hb, Bool.or_false]

/-- Appending a booking with an id no hold references leaves active held
quantities unchanged. -/
theorem activeHeld_bookings_append (bks : List Booking) (b : Booking) (gameId : Nat)
    (l : List BookingGame) (h : ∀ bg ∈ l, bg.bookingId ≠ b.id) :
    activeHeld (bks ++ [b]) gameId l = activeHeld bks gameId l := by
  induction l with
  | nil => simp [activeHeld]
  | cons x rest ih =>
    simp only [activeHeld]
    rw [hasActiveOwner_append_ne bks b x.bookingId (h x (by simp))]
    rw [ih (fun y hy => h y (by simp [hy]))]

/-- The cancellation map does not change ownership state of other ids. -/
theorem hasActiveOwner_cancel_ne (bks : List Booking) (cid bid : Nat) (h : bid ≠ cid) :
    hasActiveOwner (bks.map (fun b =>
      if b.id == cid then { b with status := BookingStatus.CANCELLED } else b)) bid
      = hasActiveOwner bks bid := by
  induction bks with
  | nil => rfl
  | cons x rest ih =>
    simp only [List.map_cons]
    unfold hasActiveOwner at *
    simp only [List.any_cons, ih]
    by_cases hx : (x.id == cid) = true
    · have hxid : x.id = cid := by simpa using hx
      have h1 : (x.id == bid) = false := by simp [hxid, Ne.symm h]
      rw [if_pos hx]
      simp [h1]
    · rw [if_neg hx]

/-- After the cancellation map, the cancelled id has no active owner. -/
theorem hasActiveOwner_cancel_self (bks : List Booking) (cid : Nat) :
    hasActiveOwner (bks.map (fun b =>
      if b.id == cid then { b with status := BookingStatus.CANCELLED } else b)) cid
      = false := by
  induction bks with
  | nil => rfl
  | cons x rest ih =>
    simp only [List.map_cons]
    unfold hasActiveOwner at *
    simp only [List.any_cons, ih]
    by_cases hx : (x.id == cid) = true
    · rw [if_pos hx]
      simp
    · rw [if_neg hx]
      have hxid : (x.id == cid) = false := by simpa using hx
      simp [hxid]

/-- Cancelling a booking with an active owner removes exactly its holds from
the active held quantity. -/
theorem activeHeld_cancel (bks : List Booking) (cid gameId : Nat)
    (l : List BookingGame) (hact : hasActiveOwner bks cid = true) :
    activeHeld (bks.map (fun b =>
        if b.id == cid then { b with status := BookingStatus.CANCELLED } else b)) gameId l
      = activeHeld bks gameId l
        - holdsSum gameId (l.filter (fun bg => bg.bookingId == cid)) := by
  induction l with
  | nil => simp [activeHeld, holdsSum]
  | cons bg rest ih =>
    simp only [activeHeld, List.filter_cons]
    by_cases hbid : (bg.bookingId == cid) = true
    · have hbid' : bg.bookingId = cid := by simpa using hbid
      have h1 : hasActiveOwner (bks.map (fun b =>
          if b.id == cid then { b with status := BookingStatus.CANCELLED } else b))
            bg.bookingId = false := by
        rw [hbid']
        exact hasActiveOwner_cancel_self bks cid
      have h2 : hasActiveOwner bks bg.bookingId = true := by
        rw [hbid']
        exact hact
      rw [if_pos hbid]
      rw [h1, h2, ih]
      simp only [holdsSum, Bool.and_false, Bool.and_true, if_false]
      split
      · simp_all
      · omega
    · have h1 : hasActiveOwner (bks.map (fun b =>
          if b.id == cid then { b with status := BookingStatus.CANCELLED } else b))
            bg.bookingId = hasActiveOwner bks bg.bookingId :=
        hasActiveOwner_cancel_ne bks cid bg.bookingId (by simpa using hbid)
      rw [if_neg hbid]
      rw [h1, ih]
      omega

/-- A game id no hold references has zero active held quantity. -/
theorem activeHeld_no_match (bks : List Booking) (gameId : Nat) (l : List BookingGame)
    (h : ∀ bg ∈ l, bg.boardGameId ≠ gameId) : activeHeld bks gameId l = 0 := by
  induction l with
  | nil => rfl
  | cons bg rest ih =>
    simp only [activeHeld]
    have h1 : (bg.boardGameId == gameId) = false := by simp [h bg (by simp)]
    simp [h1, ih (fun x hx => h x (by simp [hx]))]

/-- `addPick` preserves nonnegativity of all aggregated quantities. -/
theorem addPick_nonneg {acc : List (Nat × Int)} {gameId : Nat} {q : Int}
    (hacc : ∀ p ∈ acc, 0 ≤ p.2) (hq : 0 ≤ q) :
    ∀ p ∈ addPick acc gameId q, 0 ≤ p.2 := by
  induction acc with
  | nil =>
    intro p hp
    simp only [addPick, List.mem_singleton] at hp
    subst hp
    exact hq
  | cons x rest ih =>
    intro p hp
    obtain ⟨g0, q0⟩ := x
    unfold addPick at hp
    split at hp
    · rcases List.mem_cons.mp hp with h1 | h2
      · subst h1
        have := hacc (g0, q0) (by simp)
        simp only at this ⊢
        omega
      · exact hacc p (by simp [h2])
    · rcases List.mem_cons.mp hp with h1 | h2
      · subst h1
        exact hacc (g0, q0) (by simp)
      · exact ih (fun r hr => hacc r (by simp [hr])) p h2

/-- Aggregation of nonnegative selections yields nonnegative quantities. -/
theorem aggregateSelections_nonneg {sels : List (Nat × Int)}
    (h : ∀ s ∈ sels, 0 ≤ s.2) : ∀ p ∈ aggregateSelections sels, 0 ≤ p.2 := by
  suffices hgen : ∀ (l acc : List (Nat × Int)),
      (∀ s ∈ l, 0 ≤ s.2) → (∀ p ∈ acc, 0 ≤ p.2) →
      ∀ p ∈ l.foldl (fun acc s => addPick acc s.1 s.2) acc, 0 ≤ p.2 by
    exact hgen sels [] h (by simp)
  intro l
  induction l with
  | nil =>
    intro acc _ hacc p hp
    simpa using hacc p hp
  | cons s rest ih =>
    intro acc hl hacc p hp
    simp only [List.foldl_cons] at hp
    exact ih _ (fun x hx => hl x (by simp [hx]))
      (addPick_nonneg hacc (hl s (by simp))) p hp

/-- A nonzero affected-row count exhibits a sufficient row. -/
theorem condDecrement_pos {games : List BoardGame} {gameId : Nat} {q : Int}
    (h : (condDecrement games gameId q).2 ≠ 0) :
    ∃ g ∈ games, g.id = gameId ∧ q ≤ g.stockAvailable := by
  unfold condDecrement at h
  simp only at h
  rcases hne : games.filter (fun g => g.id == gameId && decide (q ≤ g.stockAvailable)) with
    _ | ⟨g, rest⟩
  · rw [hne] at h
    simp at h
  · have hg : g ∈ games.filter (fun g => g.id == gameId && decide (q ≤ g.stockAvailable)) := by
      rw [hne]
      simp
    rw [List.mem_filter] at hg
    obtain ⟨hmem, hcond⟩ := hg
    simp only [Bool.and_eq_true, beq_iff_eq, decide_eq_true_eq] at hcond
    exact ⟨g, hmem, hcond.1, hcond.2⟩

/-- One conditional decrement plus hold insert preserves the stock
invariant, provided it affected at least one row, the hold's owner is an
existing non-cancelled booking, and the quantity is nonnegative. -/
theorem stepPick_StockInv {db : DB} {bid gameId : Nat} {q : Int}
    (hinv : StockInv db) (hown : hasActiveOwner db.bookings bid = true)
    (hlt : bid < db.nextBookingId) (hq : 0 ≤ q)
    (hcnt : (condDecrement db.games gameId q).2 ≠ 0) :
    StockInv { db with
      games := (condDecrement db.games gameId q).1
      bookingGames := db.bookingGames
        ++ [{ bookingId := bid, boardGameId := gameId, quantity := q }] } := by
  obtain ⟨g0, hg0mem, hg0id, hg0suff⟩ := condDecrement_pos hcnt
  have hdec : (condDecrement db.games gameId q).1 = db.games.map (fun g =>
      if g.id == gameId && decide (q ≤ g.stockAvailable)
        then { g with stockAvailable := g.stockAvailable - q } else g) := rfl
  have hidpres : ∀ g : BoardGame,
      ((if g.id == gameId && decide (q ≤ g.stockAvailable)
        then { g with stockAvailable := g.stockAvailable - q } else g) : BoardGame).id
        = g.id := by
    intro g
    split <;> rfl
  refine ⟨?_, ?_, ?_, ?_, ?_, ?_, ?_, ?_⟩
  · intro g' hg'
    simp only [hdec, List.mem_map] at hg'
    obtain ⟨g, hg, hfg⟩ := hg'
    subst hfg
    by_cases hc : (g.id == gameId && decide (q ≤ g.stockAvailable)) = true
    · rw [if_pos hc]
      simp only [Bool.and_eq_true, decide_eq_true_eq] at hc
      simp only
      omega
    · rw [if_neg hc]
      exact hinv.low g hg
  · intro bg hbg
    simp only [List.mem_append, List.mem_singleton] at hbg
    rcases hbg with hbg | hbg
    · exact hinv.qty_nonneg bg hbg
    · subst hbg
      exact hq
  · intro g' hg'
    simp only [hdec, List.mem_map] at hg'
    obtain ⟨g, hg, hfg⟩ := hg'
    subst hfg
    simp only [activeHeld_append, hown, Bool.and_true, hidpres]
    by_cases hid : g.id = gameId
    · have hgg0 : g = g0 := by
        apply List.inj_on_of_nodup_map hinv.games_nodup hg hg0mem
        rw [hid, hg0id]
      subst hgg0
      have hc : (g.id == gameId && decide (q ≤ g.stockAvailable)) = true := by
        simp [hid, hg0suff]
      rw [if_pos hc]
      have hbound := hinv.bound g hg
      have hind : (gameId == g.id) = true := by simp [hid]
      simp only [hind, if_true, Bool.and_true]
      omega
    · have hc : (g.id == gameId && decide (q ≤ g.stockAvailable)) = false := by
        simp [hid]
      rw [hc]
      simp only [Bool.false_eq_true, if_false]
      have hind : (gameId == g.id) = false := by simp [Ne.symm hid]
      simp only [hind, Bool.false_eq_true, if_false, add_zero]
      exact hinv.bound g hg
  · simp only [hdec, List.map_map]
    have : (fun g : BoardGame => g.id) ∘ (fun g =>
        if g.id == gameId && decide (q ≤ g.stockAvailable)
          then { g with stockAvailable := g.stockAvailable - q } else g)
        = fun g : BoardGame => g.id := by
      funext g
      exact hidpres g
    rw [this]
    exact hinv.games_nodup
  · intro g' hg'
    simp only [hdec, List.mem_map] at hg'
    obtain ⟨g, hg, hfg⟩ := hg'
    subst hfg
    rw [hidpres]
    exact hinv.games_lt g hg
  · intro bg hbg
    simp only [List.mem_append, List.mem_singleton] at hbg
    rcases hbg with hbg | hbg
    · exact hinv.holds_game_lt bg hbg
    · subst hbg
      simp only
      rw [← hg0id]
      exact hinv.games_lt g0 hg0mem
  · exact hinv.bookings_lt
  · intro bg hbg
    simp only [List.mem_append, List.mem_singleton] at hbg
    rcases hbg with hbg | hbg
    · exact hinv.holds_booking_lt bg hbg
    · subst hbg
      exact hlt

/-- The whole pick loop preserves the stock invariant. -/
theorem applyPicks_StockInv :
    ∀ (agg : List (Nat × Int)) (db : DB) (bid : Nat) (db' : DB),
      StockInv db →
      hasActiveOwner db.bookings bid = true →
      bid < db.nextBookingId →
      (∀ p ∈ agg, 0 ≤ p.2) →
      applyPicks db bid agg = .ok db' →
      StockInv db' := by
  intro agg
  induction agg with
  | nil =>
    intro db bid db' hinv hown hlt hwf h
    simp only [applyPicks, Except.ok.injEq] at h
    subst h
    exact hinv
  | cons p rest ih =>
    intro db bid db' hinv hown hlt hwf h
    obtain ⟨gameId, q⟩ := p
    unfold applyPicks at h
    simp only at h
    split at h
    case isTrue => simp at h
    case isFalse hcnt =>
      have hq : 0 ≤ q := hwf (gameId, q) (by simp)
      have hcnt' : (condDecrement db.games gameId q).2 ≠ 0 := by
        simpa using hcnt
      exact ih _ bid db'
        (stepPick_StockInv hinv hown hlt hq hcnt')
        hown hlt (fun r hr => hwf r (by simp [hr])) h

/-- A successful create transaction is the pick loop run on the state with
the new CONFIRMED reservation row inserted. -/
theorem txCreate_ok_applyPicks {db : DB} {memberId tableId : Nat}
    {startAt endAt peopleCount : Int} {agg : List (Nat × Int)} {db' : DB} {bk : Booking}
    (h : txCreate db memberId tableId startAt endAt peopleCount agg = .ok (db', bk)) :
    applyPicks { db with bookings := db.bookings ++ [{ id := db.nextBookingId, memberId := memberId, tableId := tableId, startAt := startAt, endAt := endAt, peopleCount := peopleCount, status := .CONFIRMED }], nextBookingId := db.nextBookingId + 1 } db.nextBookingId agg = .ok db' := by
  unfold txCreate at h
  simp only at h
  split at h
  case isTrue => simp at h
  case isFalse hcnt =>
    split at h
    case h_1 => simp at h
    case h_2 db2 happ =>
      simp only [Except.ok.injEq, Prod.mk.injEq] at h
      rw [← h.1]
      exact happ

/-- `GamesService.create` preserves the stock invariant when the dto passed
validation (`stockAvailable` nonnegative). -/
theorem createGame_StockInv {db : DB} {dto : CreateGameDto} {db' : DB} {g : BoardGame}
    (hwf : 0 ≤ dto.stockAvailable) (hinv : StockInv db)
    (h : createGame db dto = .ok (db', g)) : StockInv db' := by
  unfold createGame at h
  split at h
  case isTrue => simp at h
  case isFalse hco =>
    simp only [Except.ok.injEq, Prod.mk.injEq] at h
    obtain ⟨hdb, hg⟩ := h
    subst hdb
    have hco' : dto.stockAvailable ≤ dto.stockTotal := by omega
    refine ⟨?_, ?_, ?_, ?_, ?_, ?_, ?_, ?_⟩
    · intro g' hg'
      simp only [List.mem_append, List.mem_singleton] at hg'
      rcases hg' with hg' | hg'
      · exact hinv.low g' hg'
      · subst hg'
        exact hwf
    · exact hinv.qty_nonneg
    · intro g' hg'
      simp only [List.mem_append, List.mem_singleton] at hg'
      rcases hg' with hg' | hg'
      · exact hinv.bound g' hg'
      · subst hg'
        have hzero : activeHeld db.bookings db.nextGameId db.bookingGames = 0 := by
          apply activeHeld_no_match
          intro bg hbg
          have := hinv.holds_game_lt bg hbg
          omega
        simp only [hzero]
        simpa using hco'
    · rw [List.map_append]
      refine List.Nodup.append hinv.games_nodup (by simp) ?_
      intro x hx hx'
      simp only [List.mem_map] at hx
      obtain ⟨g', hg', hid⟩ := hx
      have := hinv.games_lt g' hg'
      simp only [List.map_cons, List.map_nil, List.mem_singleton] at hx'
      omega
    · intro g' hg'
      simp only [List.mem_append, List.mem_singleton] at hg'
      rcases hg' with hg' | hg'
      · have := hinv.games_lt g' hg'
        show g'.id < db.nextGameId + 1
        omega
      · subst hg'
        simp
    · intro bg hbg
      have := hinv.holds_game_lt bg hbg
      show bg.boardGameId < db.nextGameId + 1
      omega
    · exact hinv.bookings_lt
    · exact hinv.holds_booking_lt

/-- `BookingsService.cancel` preserves the stock invariant. -/
theorem cancelBooking_StockInv {cfg : Config} {now : Int} {user : AuthUser} {db : DB}
    {bookingId : Nat} {db' : DB} {bk : Booking} (hinv : StockInv db)
    (h : cancelBooking cfg now user db bookingId = .ok (db', bk)) : StockInv db' := by
  obtain ⟨booking, hfind, hauth, hstatus, hdl, hbk, hdb'⟩ := cancelBooking_ok h
  subst hdb'
  have hbmem : booking ∈ db.bookings := List.mem_of_find?_eq_some hfind
  have hown : hasActiveOwner db.bookings booking.id = true := by
    unfold hasActiveOwner
    rw [List.any_eq_true]
    exact ⟨booking, hbmem, by simp [hstatus]⟩
  have hqf : ∀ bg ∈ db.bookingGames.filter (fun bg => bg.bookingId == booking.id),
      0 ≤ bg.quantity := by
    intro bg hbg
    exact hinv.qty_nonneg bg (List.mem_of_mem_filter hbg)
  refine ⟨?_, ?_, ?_, ?_, ?_, ?_, ?_, ?_⟩
  · intro g' hg'
    simp only [incrementAll_eq_map, List.mem_map] at hg'
    obtain ⟨g, hg, hfg⟩ := hg'
    subst hfg
    have h1 := hinv.low g hg
    have h2 := @holdsSum_nonneg g.id _ hqf
    simp only
    omega
  · exact hinv.qty_nonneg
  · intro g' hg'
    simp only [incrementAll_eq_map, List.mem_map] at hg'
    obtain ⟨g, hg, hfg⟩ := hg'
    subst hfg
    simp only
    rw [activeHeld_cancel db.bookings booking.id g.id db.bookingGames hown]
    have := hinv.bound g hg
    omega
  · simp only [incrementAll_eq_map, List.map_map]
    have hcomp : (fun g : BoardGame => g.id) ∘ (fun g =>
        { g with stockAvailable := g.stockAvailable + holdsSum g.id (db.bookingGames.filter (fun bg => bg.bookingId == booking.id)) })
        = fun g : BoardGame => g.id := by
      funext g
      rfl
    rw [hcomp]
    exact hinv.games_nodup
  · intro g' hg'
    simp only [incrementAll_eq_map, List.mem_map] at hg'
    obtain ⟨g, hg, hfg⟩ := hg'
    subst hfg
    exact hinv.games_lt g hg
  · exact hinv.holds_game_lt
  · intro b' hb'
    simp only [List.mem_map] at hb'
    obtain ⟨b, hb, hfb⟩ := hb'
    subst hfb
    have := hinv.bookings_lt b hb
    by_cases hx : (b.id == booking.id) = true
    · rw [if_pos hx]
      simpa using this
    · rw [if_neg hx]
      exact this
  · exact hinv.holds_booking_lt

/-- `BookingsService.create` preserves the stock invariant when every
selected quantity is nonnegative. -/
theorem createBooking_StockInv {cfg : Config} {now : Int} {user : AuthUser} {db : DB}
    {dto : CreateBookingDto} {db' : DB} {bk : Booking}
    (hwf : ∀ s ∈ dto.gameSelections, 0 ≤ s.2) (hinv : StockInv db)
    (h : createBooking cfg now user db dto = .ok (db', bk)) : StockInv db' := by
  obtain ⟨s, e, mid, hs, he, htx⟩ := createBooking_ok h
  have happ := txCreate_ok_applyPicks htx
  have hfresh : ∀ bg ∈ db.bookingGames, bg.bookingId ≠ db.nextBookingId := by
    intro bg hbg
    have := hinv.holds_booking_lt bg hbg
    omega
  refine applyPicks_StockInv _ _ db.nextBookingId db' ?_ ?_ ?_
    (aggregateSelections_nonneg hwf) happ
  · refine ⟨hinv.low, hinv.qty_nonneg, ?_, hinv.games_nodup, hinv.games_lt,
      hinv.holds_game_lt, ?_, ?_⟩
    · intro g hg
      have heq : activeHeld (db.bookings ++ [{ id := db.nextBookingId, memberId := mid, tableId := dto.tableId, startAt := s, endAt := e, peopleCount := dto.peopleCount, status := .CONFIRMED }]) g.id db.bookingGames
          = activeHeld db.bookings g.id db.bookingGames :=
        activeHeld_bookings_append db.bookings _ g.id db.bookingGames hfresh
      simp only
      rw [heq]
      exact hinv.bound g hg
    · intro b hb
      simp only [List.mem_append, List.mem_singleton] at hb
      rcases hb with hb | hb
      · have := hinv.bookings_lt b hb
        simp only
        omega
      · subst hb
        simp
    · intro bg hbg
      have := hinv.holds_booking_lt bg hbg
      simp only
      omega
  · unfold hasActiveOwner
    rw [List.any_append]
    simp
  · simp

/-- The pick loop preserves the lower stock bound. -/
theorem applyPicks_LowInv :
    ∀ (agg : List (Nat × Int)) (db : DB) (bid : Nat) (db' : DB),
      LowInv db → (∀ p ∈ agg, 0 ≤ p.2) →
      applyPicks db bid agg = .ok db' → LowInv db' := by
  intro agg
  induction agg with
  | nil =>
    intro db bid db' hinv hwf h
    simp only [applyPicks, Except.ok.injEq] at h
    subst h
    exact hinv
  | cons p rest ih =>
    intro db bid db' hinv hwf h
    obtain ⟨gameId, q⟩ := p
    unfold applyPicks at h
    simp only at h
    split at h
    case isTrue => simp at h
    case isFalse hcnt =>
      refine ih _ bid db' ⟨?_, ?_⟩ (fun r hr => hwf r (by simp [hr])) h
      · intro g' hg'
        have hdec : (condDecrement db.games gameId q).1 = db.games.map (fun g =>
            if g.id == gameId && decide (q ≤ g.stockAvailable)
              then { g with stockAvailable := g.stockAvailable - q } else g) := rfl
        simp only [hdec, List.mem_map] at hg'
        obtain ⟨g, hg, hfg⟩ := hg'
        subst hfg
        by_cases hc : (g.id == gameId && decide (q ≤ g.stockAvailable)) = true
        · rw [if_pos hc]
          simp only [Bool.and_eq_true, decide_eq_true_eq] at hc
          simp only
          omega
        · rw [if_neg hc]
          exact hinv.1 g hg
      · intro bg hbg
        simp only [List.mem_append, List.mem_singleton] at hbg
        rcases hbg with hbg | hbg
        · exact hinv.2 bg hbg
        · subst hbg
          exact hwf (gameId, q) (by simp)

/-- `GamesService.create` preserves the lower stock bound. -/
theorem createGame_LowInv {db : DB} {dto : CreateGameDto} {db' : DB} {g : BoardGame}
    (hwf : 0 ≤ dto.stockAvailable) (hinv : LowInv db)
    (h : createGame db dto = .ok (db', g)) : LowInv db' := by
  unfold createGame at h
  split at h
  case isTrue => simp at h
  case isFalse =>
    simp only [Except.ok.injEq, Prod.mk.injEq] at h
    rw [← h.1]
    refine ⟨?_, hinv.2⟩
    intro g' hg'
    simp only [List.mem_append, List.mem_singleton] at hg'
    rcases hg' with hg' | hg'
    · exact hinv.1 g' hg'
    · subst hg'
      exact hwf

/-- `GamesService.update` preserves the lower stock bound when the dto
passed validation. -/
theorem updateGame_LowInv {db : DB} {id : Nat} {dto : UpdateGameDto} {db' : DB}
    {g : BoardGame} (hwf : ∀ v, dto.stockAvailable = some v → 0 ≤ v)
    (hinv : LowInv db) (h : updateGame db id dto = .ok (db', g)) : LowInv db' := by
  unfold updateGame at h
  split at h
  case h_1 => simp at h
  case h_2 existing hfind =>
    simp only at h
    split at h
    case isTrue => simp at h
    case isFalse =>
      simp only [Except.ok.injEq, Prod.mk.injEq] at h
      rw [← h.1]
      refine ⟨?_, hinv.2⟩
      intro g' hg'
      simp only [List.mem_map] at hg'
      obtain ⟨g0, hg0, hfg⟩ := hg'
      subst hfg
      by_cases hc : (g0.id == id) = true
      · rw [if_pos hc]
        cases hv : dto.stockAvailable with
        | none =>
          simp only [hv, Option.getD_none]
          exact hinv.1 g0 hg0
        | some v =>
          simp only [hv, Option.getD_some]
          exact hwf v hv
      · rw [if_neg hc]
        exact hinv.1 g0 hg0

/-- `BookingsService.cancel` preserves the lower stock bound. -/
theorem cancelBooking_LowInv {cfg : Config} {now : Int} {user : AuthUser} {db : DB}
    {bookingId : Nat} {db' : DB} {bk : Booking} (hinv : LowInv db)
    (h : cancelBooking cfg now user db bookingId = .ok (db', bk)) : LowInv db' := by
  obtain ⟨booking, hfind, hauth, hstatus, hdl, hbk, hdb'⟩ := cancelBooking_ok h
  subst hdb'
  have hqf : ∀ bg ∈ db.bookingGames.filter (fun bg => bg.bookingId == booking.id),
      0 ≤ bg.quantity :=
    fun bg hbg => hinv.2 bg (List.mem_of_mem_filter hbg)
  refine ⟨?_, hinv.2⟩
  intro g' hg'
  simp only [incrementAll_eq_map, List.mem_map] at hg'
  obtain ⟨g, hg, hfg⟩ := hg'
  subst hfg
  have h1 := hinv.1 g hg
  have h2 := @holdsSum_nonneg g.id _ hqf
  simp only
  omega

/-- `BookingsService.create` preserves the lower stock bound. -/
theorem createBooking_LowInv {cfg : Config} {now : Int} {user : AuthUser} {db : DB}
    {dto : CreateBookingDto} {db' : DB} {bk : Booking}
    (hwf : ∀ s ∈ dto.gameSelections, 0 ≤ s.2) (hinv : LowInv db)
    (h : createBooking cfg now user db dto = .ok (db', bk)) : LowInv db' := by
  obtain ⟨s, e, mid, hs, he, htx⟩ := createBooking_ok h
  have happ := txCreate_ok_applyPicks htx
  exact applyPicks_LowInv _
    { db with bookings := db.bookings ++ [{ id := db.nextBookingId, memberId := mid, tableId := dto.tableId, startAt := s, endAt := e, peopleCount := dto.peopleCount, status := .CONFIRMED }], nextBookingId := db.nextBookingId + 1 }
    db.nextBookingId db' ⟨hinv.1, hinv.2⟩ (aggregateSelections_nonneg hwf) happ

/-- One committed operation preserves the lower stock bound. -/
theorem stepOp_LowInv (cfg : Config) (db : DB) (op : Op) (hwf : OpWf op)
    (hinv : LowInv db) : LowInv (stepOp cfg db op) := by
  cases op with
  | createGame dto =>
    cases hg : createGame db dto with
    | error e => rw [stepOp_createGame_err hg]; exact hinv
    | ok res =>
      obtain ⟨db', g⟩ := res
      rw [stepOp_createGame_ok hg]
      exact createGame_LowInv hwf hinv hg
  | updateGame id dto =>
    cases hg : updateGame db id dto with
    | error e => rw [stepOp_updateGame_err hg]; exact hinv
    | ok res =>
      obtain ⟨db', g⟩ := res
      rw [stepOp_updateGame_ok hg]
      exact updateGame_LowInv hwf hinv hg
  | createBooking now user dto =>
    cases hc : createBooking cfg now user db dto with
    | error e => rw [stepOp_createBooking_err hc]; exact hinv
    | ok res =>
      obtain ⟨db', bk⟩ := res
      rw [stepOp_createBooking_ok hc]
      refine createBooking_LowInv ?_ hinv hc
      intro s hs
      have := hwf s hs
      omega
  | cancelBooking now user bookingId =>
    cases hc : cancelBooking cfg now user db bookingId with
    | error e => rw [stepOp_cancelBooking_err hc]; exact hinv
    | ok res =>
      obtain ⟨db', bk⟩ := res
      rw [stepOp_cancelBooking_ok hc]
      exact cancelBooking_LowInv hinv hc

/-- One committed operation other than a game update preserves the stock
invariant. -/
theorem stepOp_StockInv (cfg : Config) (db : DB) (op : Op) (hwf : OpWf op)
    (hnu : ∀ (id : Nat) (dto : UpdateGameDto), op ≠ .updateGame id dto)
    (hinv : StockInv db) : StockInv (stepOp cfg db op) := by
  cases op with
  | createGame dto =>
    cases hg : createGame db dto with
    | error e => rw [stepOp_createGame_err hg]; exact hinv
    | ok res =>
      obtain ⟨db', g⟩ := res
      rw [stepOp_createGame_ok hg]
      exact createGame_StockInv hwf hinv hg
  | updateGame id dto => exact absurd rfl (hnu id dto)
  | createBooking now user dto =>
    cases hc : createBooking cfg now user db dto with
    | error e => rw [stepOp_createBooking_err hc]; exact hinv
    | ok res =>
      obtain ⟨db', bk⟩ := res
      rw [stepOp_createBooking_ok hc]
      refine createBooking_StockInv ?_ hinv hc
      intro s hs
      have := hwf s hs
      omega
  | cancelBooking now user bookingId =>
    cases hc : cancelBooking cfg now user db bookingId with
    | error e => rw [stepOp_cancelBooking_err hc]; exact hinv
    | ok res =>
      obtain ⟨db', bk⟩ := res
      rw [stepOp_cancelBooking_ok hc]
      exact cancelBooking_StockInv hinv hc

/-- The lower stock bound holds after every well-formed operation
sequence. -/
theorem runOps_LowInv (cfg : Config) :
    ∀ (ops : List Op) (db : DB), (∀ op ∈ ops, OpWf op) → LowInv db →
      LowInv (runOps cfg db ops) := by
  intro ops
  induction ops with
  | nil => intro db _ h; exact h
  | cons op rest ih =>
    intro db hwf h
    exact ih _ (fun o ho => hwf o (by simp [ho]))
      (stepOp_LowInv cfg db op (hwf op (by simp)) h)

/-- The stock invariant holds after every well-formed operation sequence
without game updates. -/
theorem runOps_StockInv (cfg : Config) :
    ∀ (ops : List Op) (db : DB), (∀ op ∈ ops, OpWf op) →
      (∀ op ∈ ops, ∀ (id : Nat) (dto : UpdateGameDto), op ≠ .updateGame id dto) →
      StockInv db → StockInv (runOps cfg db ops) := by
  intro ops
  induction ops with
  | nil => intro db _ _ h; exact h
  | cons op rest ih =>
    intro db hwf hnu h
    exact ih _ (fun o ho => hwf o (by simp [ho])) (fun o ho => hnu o (by simp [ho]))
      (stepOp_StockInv cfg db op (hwf op (by simp)) (hnu op (by simp)) h)

/-! ## C2: stock-bound invariant -/

/-- C2 counterexample: starting from a consistent state (5 of 5 copies in
stock) and applying three operations the system accepts — a booking holding
2 copies, a game update raising `stockAvailable` back to 5 (the combined
check `stockAvailable <= stockTotal` passes), and the cancellation of the
booking — leaves the item with `stockAvailable = 7 > stockTotal = 5`: the
bound is violated after an operation even though every single write passed
its own check. -/
theorem c2_stock_bound_counterexample :
    stockBound (runOps cfg0 db2start
      [Op.createBooking 0 user0 dtoA,
       Op.updateGame 0 { stockTotal := none, stockAvailable := some 5, isActive := none },
       Op.cancelBooking 0 user0 0]) = false ∧
    (runOps cfg0 db2start
      [Op.createBooking 0 user0 dtoA,
       Op.updateGame 0 { stockTotal := none, stockAvailable := some 5, isActive := none },
       Op.cancelBooking 0 user0 0]).games
      = [{ id := 0, stockTotal := 5, stockAvailable := 7, isActive := true }] ∧
    (∀ op ∈ [Op.createBooking 0 user0 dtoA,
       Op.updateGame 0 { stockTotal := none, stockAvailable := some 5, isActive := none },
       Op.cancelBooking 0 user0 0], OpWf op) := by
  refine ⟨rfl, rfl, ?_⟩
  intro op hop
  simp only [List.mem_cons, List.not_mem_nil, or_false] at hop
  rcases hop with rfl | rfl | rfl
  · intro s hs
    simp only [dtoA, List.mem_singleton] at hs
    subst hs
    decide
  · intro v hv
    simp only [Option.some.injEq] at hv
    omega
  · trivial

/-- The starting state of the stock scenarios satisfies the inductive stock
invariant. -/
theorem stockInv_db2start : StockInv db2start := by
  refine ⟨?_, ?_, ?_, ?_, ?_, ?_, ?_, ?_⟩ <;>
    simp [db2start, activeHeld]

/-- C2 as amended: after every well-formed operation sequence the lower
bound `0 <= stockAvailable` holds; and for sequences without game updates,
starting from a state satisfying the hold-adjusted invariant, the full bound
`0 <= stockAvailable <= stockTotal` holds for every item after every
operation. A game update interleaved between a booking's creation and its
cancellation can break the upper bound, as the counterexample shows. -/
theorem c2_stock_bound :
    (∀ (cfg : Config) (db : DB) (ops : List Op),
      (∀ op ∈ ops, OpWf op) → LowInv db →
      ∀ g ∈ (runOps cfg db ops).games, 0 ≤ g.stockAvailable) ∧
    (∀ (cfg : Config) (db : DB) (ops : List Op),
      (∀ op ∈ ops, OpWf op) →
      (∀ op ∈ ops, ∀ (id : Nat) (dto : UpdateGameDto), op ≠ Op.updateGame id dto) →
      StockInv db → stockBound (runOps cfg db ops) = true) := by
  constructor
  · intro cfg db ops hwf hinv
    exact (runOps_LowInv cfg ops db hwf hinv).1
  · intro cfg db ops hwf hnu hinv
    have hfin := runOps_StockInv cfg ops db hwf hnu hinv
    unfold stockBound
    rw [List.all_eq_true]
    intro g hg
    have h1 := hfin.low g hg
    have h2 := hfin.bound g hg
    have h3 := @activeHeld_nonneg (runOps cfg db ops).bookings g.id
      (runOps cfg db ops).bookingGames hfin.qty_nonneg
    simp only [Bool.and_eq_true, decide_eq_true_eq]
    omega

/-- Witness for C2: a well-formed create-then-cancel sequence from the
consistent sample state keeps `0 <= stockAvailable <= stockTotal` for every
item. -/
theorem c2_stock_bound_witness :
    stockBound (runOps cfg0 db2start
      [Op.createBooking 0 user0 dtoA, Op.cancelBooking 0 user0 0]) = true :=
  c2_stock_bound.2 cfg0 db2start
    [Op.createBooking 0 user0 dtoA, Op.cancelBooking 0 user0 0]
    (by
      intro op hop
      simp only [List.mem_cons, List.not_mem_nil, or_false] at hop
      rcases hop with rfl | rfl
      · intro s hs
        simp only [dtoA, List.mem_singleton] at hs
        subst hs
        decide
      · trivial)
    (by
      intro op hop
      simp only [List.mem_cons, List.not_mem_nil, or_false] at hop
      rcases hop with rfl | rfl <;> intro id dto <;> simp)
    stockInv_db2start

end Ludocloud
